import Mathlib

/-!
# Verification of the LoRa-CP score-rule evaluation and recomputation engine

This file is a shallow embedding, in Lean 4, of the scoring core of the
LoRa-CP competition-scoring application (`app/resources/scores.py`):

* the raw-value model and Python-style numeric coercion (`_to_number`),
* the field-rule micro-language evaluator (`_apply_field_rule`),
* the checkpoint total calculator (`_compute_total`),
* the relative race normalizer (`_compute_time_race_scores_from_checkins`),
* the global contribution calculator (`_compute_global_contrib`),
* the recomputation pipeline (`recompute_scores_for_rule`) and the
  scoring-relevant portion of the submission endpoint (`ScoreSubmit.post`),

together with theorems settling the specification claims about them.

Database queries are modelled by passing explicit lists of rows
(checkins, score entries, team-group memberships); all numeric values are
modelled as exact rationals (the Python code uses floats, but every claim
under consideration is about exact arithmetic on small values).
-/

/-- A raw JSON-ish scalar value as it appears in `raw_fields` or inside a
rule specification: Python `None`, a number, or a string. -/
inductive Val : Type
  | null : Val
  | num (q : ℚ) : Val
  | str (s : String) : Val
deriving DecidableEq, Repr

/-- Numeric value of a digit string (most significant first). -/
def digitsToNat : List Char → ℕ → ℕ
  | [], acc => acc
  | c :: cs, acc => digitsToNat cs (acc * 10 + (c.toNat - 48))

/-- All characters are decimal digits. -/
def allDigits : List Char → Prop
  | [] => True
  | c :: cs => ('0' ≤ c ∧ c ≤ '9') ∧ allDigits cs

instance : ∀ cs, Decidable (allDigits cs)
  | [] => by unfold allDigits; infer_instance
  | _ :: cs =>
    haveI := instDecidableAllDigits cs
    by unfold allDigits; infer_instance

/-- Longest digit prefix. -/
def digitPrefix : List Char → List Char
  | [] => []
  | c :: cs => if '0' ≤ c ∧ c ≤ '9' then c :: digitPrefix cs else []

/-- Rest after the longest digit prefix. -/
def digitSuffix : List Char → List Char
  | [] => []
  | c :: cs => if '0' ≤ c ∧ c ≤ '9' then digitSuffix cs else c :: cs

/-- Parse an unsigned decimal literal `digits [. digits]` (at least one digit
overall), the core of Python `float` for the inputs this code sees.
Exponents, underscores, whitespace, `inf` and `nan` are not modelled;
no claim exercises them. -/
def parseDecCore (cs : List Char) : Option ℚ :=
  let ip := digitPrefix cs
  match digitSuffix cs with
  | [] => if ip = [] then none else some (digitsToNat ip 0)
  | c :: fp =>
    if c = '.' then
      if allDigits fp ∧ (ip ≠ [] ∨ fp ≠ []) then
        some ((digitsToNat ip 0 : ℚ) + (digitsToNat fp 0 : ℚ) / (10 : ℚ) ^ fp.length)
      else none
    else none

/-- Model of Python `float(s)` on a string: an optional sign followed by a
decimal literal; failure is `none`. -/
def pyFloat (s : String) : Option ℚ :=
  match s.toList with
  | [] => none
  | c :: cs =>
    if c = '+' then parseDecCore cs
    else if c = '-' then (parseDecCore cs).map Neg.neg
    else parseDecCore (c :: cs)

/-- Model of Python `float(v)` applied to a scalar: numbers pass through,
strings are parsed, `None` raises (here: `none`). -/
def vFloat : Val → Option ℚ
  | .null => none
  | .num q => some q
  | .str s => pyFloat s

/-- `_to_number` from `scores.py`: `None` and the empty string give `None`,
otherwise `float(value)` with exceptions mapped to `None`. -/
def to_number : Val → Option ℚ
  | .null => none
  | .num q => some q
  | .str s => if s = "" then none else pyFloat s

/-- Model of Python `str(v)` as used by the mapping rule's table lookup.
The rendering of numbers is abstracted by `toString`; the mapping rule is
keyed by the submitted strings in practice and no claim exercises it. -/
def pyStr : Val → String
  | .null => "None"
  | .num q => toString q
  | .str s => s

/-- First-match association-list lookup, modelling Python `dict.get`. -/
def lookupKey {κ α : Type} [DecidableEq κ] (k : κ) : List (κ × α) → Option α
  | [] => none
  | kv :: rest => if kv.1 = k then some kv.2 else lookupKey k rest

/-- Python truthiness of an optional integer id (`None` and `0` are falsy). -/
def truthyId : Option ℕ → Option ℕ
  | some n => if n = 0 then none else some n
  | none => none

/-- The `total = 0.0; used = False; for v in l: if v is not None: total += v;
used = True` pattern: sum of the non-null contributions, `none` when no
contribution was non-null. -/
def sumUsed : List (Option ℚ) → Option ℚ
  | [] => none
  | none :: rest => sumUsed rest
  | some q :: rest =>
    match sumUsed rest with
    | none => some q
    | some t => some (q + t)

/-- One `Checkin` row: team `teamId` arrived at checkpoint `checkpointId`
at time `timestamp` (seconds on a global clock) within a competition. -/
structure CheckinRec : Type where
  competitionId : ℕ
  teamId : ℕ
  checkpointId : ℕ
  timestamp : ℚ
deriving DecidableEq, Repr

/-- The `context` dict handed to `_apply_field_rule`, plus the checkin store
that the `found` rule reads (a database table in the source). -/
structure Ctx : Type where
  teamId : Option ℕ
  competitionId : Option ℕ
  groupId : Option ℕ
  checkins : List CheckinRec

/-- The checkpoint ids (with multiplicity, in order) of the checkins of
`team` in competition `comp` lying in the id list `ids` — the `found`
rule's filtered query. -/
def matchingCps (comp team : ℕ) (ids : List ℕ) : List CheckinRec → List ℕ
  | [] => []
  | c :: rest =>
    if c.competitionId = comp ∧ c.teamId = team ∧ c.checkpointId ∈ ids then
      c.checkpointId :: matchingCps comp team ids rest
    else matchingCps comp team ids rest

/-- Distinct elements of a list of naturals (each element once). -/
def dedupNat : List ℕ → List ℕ
  | [] => []
  | n :: rest => if n ∈ rest then dedupNat rest else n :: dedupNat rest

/-- The rule-spec micro-language of `_apply_field_rule`, as a closed sum:
a list of rules applied in sequence, the four pure transforms, the
checkin-counting `found` rule, and the pass-through default (any scalar or
unrecognized-`type` dict coerces the value directly). -/
inductive FieldRule : Type
  | mapping (table : List (String × Val)) : FieldRule
  | interpolate (pts : List (Val × Val)) : FieldRule
  | multiplier (factor : Val) : FieldRule
  | deviation (target maxPoints penaltyPoints penaltyDistance minPoints : Val) : FieldRule
  | found (checkpointIds : List ℕ) (pointsPer : Val) : FieldRule
  | passthrough : FieldRule
  | seq (rules : List FieldRule) : FieldRule

/-- Parse the `points` list of an interpolate rule:
`[(float(x), float(y)) for x, y in pts]`, `none` on any failure. -/
def parsePoints : List (Val × Val) → Option (List (ℚ × ℚ))
  | [] => some []
  | p :: rest =>
    match vFloat p.1, vFloat p.2, parsePoints rest with
    | some a, some b, some tail => some ((a, b) :: tail)
    | _, _, _ => none

/-- Stable insertion (ascending by `x`) used to model Python
`sorted(pts, key=lambda p: p[0])`. -/
def insertPoint (p : ℚ × ℚ) : List (ℚ × ℚ) → List (ℚ × ℚ)
  | [] => [p]
  | q :: rest => if p.1 ≤ q.1 then p :: q :: rest else q :: insertPoint p rest

/-- Stable sort of the control points by `x` (Python `sorted` with key). -/
def sortPoints : List (ℚ × ℚ) → List (ℚ × ℚ)
  | [] => []
  | p :: rest => insertPoint p (sortPoints rest)

/-- Last element of `p :: rest`, i.e. `pts[-1]`. -/
def lastOf (p : ℚ × ℚ) : List (ℚ × ℚ) → ℚ × ℚ
  | [] => p
  | q :: rest => lastOf q rest

/-- The segment scan of the interpolate rule:
`for (x1, y1), (x2, y2) in zip(pts, pts[1:]): if x1 <= x <= x2: ...`. -/
def interpScan (x : ℚ) : List (ℚ × ℚ) → Option ℚ
  | p :: q :: rest =>
    if p.1 ≤ x ∧ x ≤ q.1 then
      if q.1 = p.1 then some p.2
      else some (p.2 + (x - p.1) / (q.1 - p.1) * (q.2 - p.2))
    else interpScan x (q :: rest)
  | _ => none

/-- The post-sort body of the interpolate rule: the empty-list guard, the
two clamps (`x <= pts[0][0]`, `x >= pts[-1][0]`), then the segment scan. -/
def interpClamp (x : ℚ) : List (ℚ × ℚ) → Option ℚ
  | [] => none
  | p :: rest =>
    if x ≤ p.1 then some p.2
    else if (lastOf p rest).1 ≤ x then some (lastOf p rest).2
    else interpScan x (p :: rest)

/-- Turn the result of one rule application back into a raw value for the
next rule in a sequence (`current` in the Python loop is a float or `None`). -/
def optToVal : Option ℚ → Val
  | some q => .num q
  | none => .null

mutual

/-- `_apply_field_rule(value, rule, context)` from `scores.py`.

The Python null/empty-string guard sitting between the `found` and
`deviation` branches is absorbed here: for `deviation` the first step
`base = _to_number(value)` already yields `none` exactly on those inputs,
and for unrecognized dicts the final `_to_number(value)` does too. -/
def apply_field_rule : Val → FieldRule → Ctx → Option ℚ
  | v, .seq rules, ctx => to_number (applySeqAux v rules ctx)
  | v, .mapping table, _ =>
    match lookupKey (pyStr v) table with
    | some w => to_number w
    | none => none
  | v, .interpolate ptsRaw, _ =>
    match parsePoints ptsRaw with
    | none => none
    | some pts0 =>
      match to_number v with
      | none => none
      | some x => interpClamp x (sortPoints pts0)
  | v, .multiplier factor, _ =>
    match to_number factor, to_number v with
    | some f, some b => some (b * f)
    | _, _ => none
  | _, .found checkpointIds pointsPer, ctx =>
    match truthyId ctx.teamId, truthyId ctx.competitionId with
    | some team, some comp =>
      match checkpointIds, to_number pointsPer with
      | [], _ => none
      | _, none => none
      | _ :: _, some pp =>
        some (pp * (dedupNat (matchingCps comp team checkpointIds ctx.checkins)).length)
    | _, _ => none
  | v, .deviation target maxPoints penaltyPoints penaltyDistance minPoints, _ =>
    match to_number v, to_number target, to_number maxPoints,
        to_number penaltyPoints, to_number penaltyDistance with
    | some base, some t, some maxP, some pp, some pd =>
      if pd = 0 then none
      else
        match to_number minPoints with
        | some m => some (max (maxP - |base - t| / pd * pp) m)
        | none => some (maxP - |base - t| / pd * pp)
    | _, _, _, _, _ => none
  | v, .passthrough, _ => to_number v

/-- The loop body of the list-of-rules case:
`current = value; for item in rule: current = _apply_field_rule(current, item, context)`. -/
def applySeqAux : Val → List FieldRule → Ctx → Val
  | v, [], _ => v
  | v, r :: rest, ctx => applySeqAux (optToVal (apply_field_rule v r ctx)) rest ctx

end

/-- The `time_race` block of a `ScoreRule`:
`{start_checkpoint_id, end_checkpoint_id, min_points, max_points}`. -/
structure TimeRace : Type where
  startCheckpointId : Option ℕ
  endCheckpointId : Option ℕ
  minPoints : Val
  maxPoints : Val

/-- A `ScoreRule.rules` JSON document: `field_rules` (empty list models a
missing or empty — hence falsy — dict), `total_fields` (empty list models a
missing or empty list) and the optional `time_race` block. -/
structure Rule : Type where
  fieldRules : List (String × FieldRule)
  totalFields : List String
  timeRace : Option TimeRace

/-- Evaluation of one raw field in `_compute_total` step 1:
`_apply_field_rule(val, field_rule, context) if field_rule else
_to_number(val)` (a falsy field rule and a missing one coerce directly; the
falsy rule specs `{}`, `[]`, `0`, `""` and `None` all behave as direct
coercion under `_apply_field_rule` as well, so they are modelled as absent). -/
def evalField (frs : List (String × FieldRule)) (ctx : Ctx) (k : String) (v : Val) : Option ℚ :=
  match lookupKey k frs with
  | some fr => apply_field_rule v fr ctx
  | none => to_number v

/-- The `computed` dict of `_compute_total` step 1. -/
def evalFields (frs : List (String × FieldRule)) (ctx : Ctx) :
    List (String × Val) → List (String × Option ℚ)
  | [] => []
  | kv :: rest => (kv.1, evalField frs ctx kv.1 kv.2) :: evalFields frs ctx rest

/-- The keys of a dict, in order. -/
def keysOf {α : Type} : List (String × α) → List String
  | [] => []
  | kv :: rest => kv.1 :: keysOf rest

/-- `[key for key in total_fields if key != "dead_time"]`. -/
def dropDeadTime : List String → List String
  | [] => []
  | k :: rest => if k = "dead_time" then dropDeadTime rest else k :: dropDeadTime rest

/-- `computed.get(key)` for each key of the summation list. -/
def totalsOver (computed : List (String × Option ℚ)) : List String → List (Option ℚ)
  | [] => []
  | k :: rest => (lookupKey k computed).join :: totalsOver computed rest

/-- Step 1 of `_compute_total`: evaluate every raw field, pick
`total_fields` (defaulting to all keys), drop `"dead_time"`, and sum the
non-null evaluated values. -/
def fieldRulesTotal (values : List (String × Val)) (r : Rule) (ctx : Ctx) : Option ℚ :=
  sumUsed (totalsOver (evalFields r.fieldRules ctx values)
    (dropDeadTime (if r.totalFields = [] then keysOf (evalFields r.fieldRules ctx values)
      else r.totalFields)))

/-- Step 3 of `_compute_total` (the fallback): the sum of all numerically
coercible raw fields whose key is neither `"time"` nor `"dead_time"`,
`none` when none coerce. -/
def fallbackSum (values : List (String × Val)) : Option ℚ :=
  sumUsed (values.map (fun kv =>
    if kv.1 = "time" ∨ kv.1 = "dead_time" then none else to_number kv.2))

/-- `_compute_total(values, points_header, rule, context)` from `scores.py`:
rule-driven total, then the points-header override, then the literal
`"points"` override, then the fallback sum when everything so far is null. -/
def compute_total (values : List (String × Val)) (pointsHeader : Option String)
    (rule : Option Rule) (ctx : Ctx) : Option ℚ :=
  let base1 : Option ℚ :=
    match rule with
    | some r =>
      match r.fieldRules with
      | [] => none
      | _ :: _ => fieldRulesTotal values r ctx
    | none => none
  let base2 : Option ℚ :=
    match pointsHeader with
    | some h =>
      if h = "" then base1
      else
        match lookupKey h values with
        | some v => to_number v
        | none => base1
    | none => base1
  let base3 : Option ℚ :=
    match lookupKey "points" values with
    | some v => to_number v
    | none => base2
  match base3 with
  | some t => some t
  | none => fallbackSum values

example : to_number (.str "") = none := by norm_num [to_number]
example : to_number (.num 4) = some 4 := by norm_num [to_number]
example : apply_field_rule (.num 5) (.interpolate [(.num 0, .num 0), (.num 10, .num 100)])
    ⟨none, none, none, []⟩ = some 50 := by
  norm_num [apply_field_rule, parsePoints, vFloat, to_number, sortPoints, insertPoint,
    lastOf, interpScan, interpClamp]
example : apply_field_rule (.num 7) (.multiplier (.num 3)) ⟨none, none, none, []⟩ = some 21 := by
  norm_num [apply_field_rule, to_number]
example : apply_field_rule (.num 12) (.deviation (.num 10) (.num 50) (.num 5) (.num 1) .null)
    ⟨none, none, none, []⟩ = some 40 := by
  norm_num [apply_field_rule, to_number]
example :
    compute_total [("a", .num 25), ("b", .num 15)] none
      (some ⟨[("a", .passthrough), ("b", .passthrough)], [], none⟩) ⟨none, none, none, []⟩
      = some 40 := by
  simp [compute_total, fieldRulesTotal, evalFields, evalField, keysOf, dropDeadTime,
    totalsOver, fallbackSum, sumUsed, lookupKey, apply_field_rule, to_number]
  norm_num
example :
    compute_total [("a", .num 25), ("b", .num 15), ("points", .num 99)] none
      (some ⟨[("a", .passthrough), ("b", .passthrough)], [], none⟩) ⟨none, none, none, []⟩
      = some 99 := by
  simp [compute_total, fieldRulesTotal, evalFields, evalField, keysOf, dropDeadTime,
    totalsOver, fallbackSum, sumUsed, lookupKey, apply_field_rule, to_number]
example :
    compute_total [("dead_time", .num 5), ("a", .num 3)] none
      (some ⟨[("dead_time", .passthrough), ("a", .passthrough)], ["dead_time", "a"], none⟩)
      ⟨none, none, none, []⟩ = some 3 := by
  simp [compute_total, fieldRulesTotal, evalFields, evalField, keysOf, dropDeadTime,
    totalsOver, fallbackSum, sumUsed, lookupKey, apply_field_rule, to_number]

/-- Timestamps (in order) of the checkins of `team` at checkpoint `cp` in
competition `comp` — the per-team `Checkin` query of the race normalizers. -/
def tsList (comp cp team : ℕ) : List CheckinRec → List ℚ
  | [] => []
  | c :: rest =>
    if c.competitionId = comp ∧ c.checkpointId = cp ∧ c.teamId = team then
      c.timestamp :: tsList comp cp team rest
    else tsList comp cp team rest

/-- Left fold of `min`. -/
def foldMin (a : ℚ) : List ℚ → ℚ
  | [] => a
  | x :: rest => foldMin (min a x) rest

/-- Left fold of `max`. -/
def foldMax (a : ℚ) : List ℚ → ℚ
  | [] => a
  | x :: rest => foldMax (max a x) rest

/-- Earliest checkin timestamp of `team` at checkpoint `cp`
(`func.min(Checkin.timestamp)` grouped by team, and the
`order_by(timestamp.asc()).first()` of the global rule). -/
def minTs (checkins : List CheckinRec) (comp cp team : ℕ) : Option ℚ :=
  match tsList comp cp team checkins with
  | [] => none
  | t :: ts => some (foldMin t ts)

/-- Duration of `team` between its earliest checkins at the start and end
checkpoints; `none` when either checkin is missing or the duration is
negative (the `continue` branches of the durations loop). -/
def durOf (checkins : List CheckinRec) (comp scp ecp team : ℕ) : Option ℚ :=
  match minTs checkins comp scp team, minTs checkins comp ecp team with
  | some s, some e => if e - s < 0 then none else some (e - s)
  | _, _ => none

/-- The `durations` dict: qualifying teams (in `team_ids` order) with their
durations. -/
def durationsOf (checkins : List CheckinRec) (comp scp ecp : ℕ) : List ℕ → List (ℕ × ℚ)
  | [] => []
  | t :: rest =>
    match durOf checkins comp scp ecp t with
    | some d => (t, d) :: durationsOf checkins comp scp ecp rest
    | none => durationsOf checkins comp scp ecp rest

/-- `_compute_time_race_scores_from_checkins` from `scores.py`: min–max
normalize the qualifying durations to `[min_points, max_points]`,
fastest high; all-tied cohorts all get `max_points`. -/
def compute_time_race_scores_from_checkins (teamIds : List ℕ) (checkins : List CheckinRec)
    (comp scp ecp : ℕ) (minP maxP : ℚ) : List (ℕ × ℚ) :=
  match teamIds with
  | [] => []
  | _ :: _ =>
    match durationsOf checkins comp scp ecp teamIds with
    | [] => []
    | d0 :: rest =>
      let minD := foldMin d0.2 (rest.map Prod.snd)
      let maxD := foldMax d0.2 (rest.map Prod.snd)
      if maxD = minD then (d0 :: rest).map (fun p => (p.1, maxP))
      else
        (d0 :: rest).map (fun p => (p.1, maxP - (p.2 - minD) / (maxD - minD) * (maxP - minP)))

example :
    compute_time_race_scores_from_checkins [1, 2, 3]
      [⟨9, 1, 11, 0⟩, ⟨9, 1, 12, 600⟩, ⟨9, 2, 11, 0⟩, ⟨9, 2, 12, 1200⟩,
       ⟨9, 3, 11, 0⟩, ⟨9, 3, 12, 1800⟩]
      9 11 12 0 100 = [(1, 100), (2, 50), (3, 0)] := by
  simp [compute_time_race_scores_from_checkins, durationsOf, durOf, minTs, tsList,
    foldMin, foldMax]
  norm_num [foldMin, foldMax, min_def, max_def]

/-- The `found` block of a `GlobalScoreRule`:
`{points_per, exclude_start_checkpoint, exclude_end_checkpoint}`. -/
structure GlobalFoundRule : Type where
  pointsPer : Val
  excludeStart : Bool
  excludeEnd : Bool

/-- The `time` block of a `GlobalScoreRule`: `{start_checkpoint_id,
end_checkpoint_id, max_points, threshold_minutes, penalty_minutes,
penalty_points, min_points}`. -/
structure GlobalTimeRule : Type where
  startCheckpointId : Option ℕ
  endCheckpointId : Option ℕ
  maxPoints : Val
  thresholdMinutes : Val
  penaltyMinutes : Val
  penaltyPoints : Val
  minPoints : Val

/-- A `GlobalScoreRule.rules` document (absent or falsy blocks are `none`). -/
structure GlobalRule : Type where
  found : Option GlobalFoundRule
  time : Option GlobalTimeRule

/-- Python `list.remove` with the `ValueError` swallowed: drop the first
occurrence if present. -/
def removeFirst (x : ℕ) : List ℕ → List ℕ
  | [] => []
  | a :: rest => if a = x then rest else a :: removeFirst x rest

/-- The per-team result of `_compute_global_contrib`. -/
structure GlobalContrib : Type where
  total : Option ℚ
  foundPoints : Option ℚ
  timePoints : Option ℚ
deriving DecidableEq, Repr

/-- The found-points part of `_compute_global_contrib`: the group's member
checkpoints (`groupCpIds`, from the `CheckpointGroupLink` query), minus the
global time rule's start/end checkpoint when the exclusion flags are set,
counted distinct over the team's checkins and multiplied by `points_per`;
`none` when `points_per` does not coerce or the id list ends up empty. -/
def globalFoundPoints (comp team : ℕ) (groupCpIds : List ℕ) (checkins : List CheckinRec)
    (g : GlobalRule) : Option ℚ :=
  match g.found with
  | none => none
  | some f =>
    match to_number f.pointsPer with
    | none => none
    | some pp =>
      let ids0 := groupCpIds
      let ids1 :=
        if f.excludeStart then
          match g.time with
          | some t =>
            match truthyId t.startCheckpointId with
            | some scp => removeFirst scp ids0
            | none => ids0
          | none => ids0
        else ids0
      let ids2 :=
        if f.excludeEnd then
          match g.time with
          | some t =>
            match truthyId t.endCheckpointId with
            | some ecp => removeFirst ecp ids1
            | none => ids1
          | none => ids1
        else ids1
      match ids2 with
      | [] => none
      | _ :: _ =>
        some (pp * (dedupNat (matchingCps comp team ids2 checkins)).length)

/-- The time part of `_compute_global_contrib` (the threshold race
normalizer): full `max_points` up to `threshold_minutes`, then a linear
`penalty_points` per `penalty_minutes` deduction, floored at `min_points`
(default `0`); `none` when the rule is incomplete (`penalty_minutes` must be
truthy, i.e. present and non-zero) or either earliest checkin is missing. -/
def globalTimePoints (comp team : ℕ) (checkins : List CheckinRec) (g : GlobalRule) : Option ℚ :=
  match g.time with
  | none => none
  | some t =>
    match truthyId t.startCheckpointId, truthyId t.endCheckpointId,
        to_number t.maxPoints, to_number t.thresholdMinutes,
        to_number t.penaltyMinutes, to_number t.penaltyPoints with
    | some scp, some ecp, some maxP, some thr, some pm, some pp =>
      if pm = 0 then none
      else
        let minP := (to_number t.minPoints).getD 0
        match minTs checkins comp scp team, minTs checkins comp ecp team with
        | some sTs, some eTs =>
          let dur := (eTs - sTs) / 60
          let tp := if dur ≤ thr then maxP else maxP - max 0 (dur - thr) / pm * pp
          some (if tp < minP then minP else tp)
        | _, _ => none
    | _, _, _, _, _, _ => none

/-- `_compute_global_contrib(competition_id, team_id, group_id, global_rule)`
from `scores.py`. The group's member-checkpoint ids and the checkin store
are passed explicitly in place of the database session. -/
def compute_global_contrib (comp team : ℕ) (groupCpIds : List ℕ) (checkins : List CheckinRec)
    (globalRule : Option GlobalRule) : GlobalContrib :=
  match globalRule with
  | none => ⟨none, none, none⟩
  | some g =>
    let fp := globalFoundPoints comp team groupCpIds checkins g
    let tp := globalTimePoints comp team checkins g
    match fp, tp with
    | none, none => ⟨none, none, none⟩
    | some f, none => ⟨some f, some f, none⟩
    | none, some t => ⟨some t, none, some t⟩
    | some f, some t => ⟨some (f + t), some f, some t⟩

example :
    globalTimePoints 9 7 [⟨9, 7, 1, 0⟩, ⟨9, 7, 2, 1800⟩]
      ⟨none, some ⟨some 1, some 2, .num 100, .num 60, .num 10, .num 10, .null⟩⟩
      = some 100 := by
  simp [globalTimePoints, truthyId, to_number, minTs, tsList, foldMin]
  norm_num

example :
    globalTimePoints 9 7 [⟨9, 7, 1, 0⟩, ⟨9, 7, 2, 4800⟩]
      ⟨none, some ⟨some 1, some 2, .num 100, .num 60, .num 10, .num 10, .null⟩⟩
      = some 80 := by
  simp [globalTimePoints, truthyId, to_number, minTs, tsList, foldMin]
  norm_num [max_def]

/-- One `ScoreEntry` row. `createdAt` is an abstract, monotonically
increasing clock; `id` is the primary key. -/
structure EntryRec : Type where
  id : ℕ
  competitionId : ℕ
  teamId : ℕ
  checkpointId : ℕ
  rawFields : List (String × Val)
  total : Option ℚ
  createdAt : ℕ
deriving DecidableEq, Repr

/-- One `TeamGroup` membership row. -/
structure TeamGroupRec : Type where
  teamId : ℕ
  groupId : ℕ
  active : Bool
deriving DecidableEq, Repr

/-- The database state the scoring engine reads and writes. -/
structure St : Type where
  checkins : List CheckinRec
  entries : List EntryRec
  teamGroups : List TeamGroupRec

/-- Team `team` has an active membership of group `gid`
(the `TeamGroup` join filter of the cohort queries). -/
def activeInGroup (team gid : ℕ) : List TeamGroupRec → Prop
  | [] => False
  | tg :: rest => (tg.teamId = team ∧ tg.groupId = gid ∧ tg.active = true) ∨
      activeInGroup team gid rest

instance : ∀ tgs, Decidable (activeInGroup team gid tgs)
  | [] => by unfold activeInGroup; infer_instance
  | _ :: tgs =>
    haveI := @instDecidableActiveInGroup team gid tgs
    by unfold activeInGroup; infer_instance

/-- The `ScoreEntry ⋈ TeamGroup` filter of the cohort queries: entries of
this competition and checkpoint whose team is active in group `gid`. -/
def cohortFilter (comp cp gid : ℕ) (tgs : List TeamGroupRec) : List EntryRec → List EntryRec
  | [] => []
  | e :: rest =>
    if e.competitionId = comp ∧ e.checkpointId = cp ∧ activeInGroup e.teamId gid tgs then
      e :: cohortFilter comp cp gid tgs rest
    else cohortFilter comp cp gid tgs rest

/-- Stable insertion for `order_by(created_at.desc())`. -/
def insertEntryDesc (e : EntryRec) : List EntryRec → List EntryRec
  | [] => [e]
  | a :: rest => if a.createdAt < e.createdAt then e :: a :: rest else a :: insertEntryDesc e rest

/-- Stable sort by `created_at` descending. -/
def sortByCreatedDesc : List EntryRec → List EntryRec
  | [] => []
  | e :: rest => insertEntryDesc e (sortByCreatedDesc rest)

/-- The `latest_by_team` dict build: keep the first (i.e. latest) entry per
team, in encounter order. -/
def dedupByTeam : List EntryRec → List ℕ → List EntryRec
  | [], _ => []
  | e :: rest, seen =>
    if e.teamId ∈ seen then dedupByTeam rest seen
    else e :: dedupByTeam rest (e.teamId :: seen)

/-- The cohort of current entries for `(checkpoint, group)`: latest entry of
each team with an active membership of the group, newest team first. -/
def latestEntries (st : St) (comp cp gid : ℕ) : List EntryRec :=
  dedupByTeam (sortByCreatedDesc (cohortFilter comp cp gid st.teamGroups st.entries)) []

/-- Write a batch of new totals onto the entry table: entry `id` keyed. -/
def applyTotals (updates : List (ℕ × Option ℚ)) : List EntryRec → List EntryRec
  | [] => []
  | e :: rest =>
    match lookupKey e.id updates with
    | some t => { e with total := t } :: applyTotals updates rest
    | none => e :: applyTotals updates rest

/-- The active-`time_race` test shared by `recompute_scores_for_rule` and
`ScoreSubmit.post`: a rule with a truthy `time_race` block whose start and
end checkpoint ids are both truthy. -/
def ruleTimeRace : Option Rule → Option (TimeRace × ℕ × ℕ)
  | none => none
  | some r =>
    match r.timeRace with
    | none => none
    | some tr =>
      match truthyId tr.startCheckpointId, truthyId tr.endCheckpointId with
      | some scp, some ecp => some (tr, scp, ecp)
      | _, _ => none

/-- The time-race branch of `recompute_scores_for_rule`: each cohort entry
whose team received a normalized score gets exactly that score as its new
total; unscored entries are left alone. -/
def ruleChangeUpdates (scores : List (ℕ × ℚ)) : List EntryRec → List (ℕ × Option ℚ)
  | [] => []
  | e :: rest =>
    match lookupKey e.teamId scores with
    | some s => (e.id, some s) :: ruleChangeUpdates scores rest
    | none => ruleChangeUpdates scores rest

/-- The field-rule branch of `recompute_scores_for_rule`: every cohort entry
gets `_compute_total(entry.raw_fields, None, rule, context)` as its total. -/
def fieldRecomputeUpdates (comp gid : ℕ) (rule : Option Rule) (checkins : List CheckinRec) :
    List EntryRec → List (ℕ × Option ℚ)
  | [] => []
  | e :: rest =>
    (e.id, compute_total e.rawFields none rule ⟨some e.teamId, some comp, some gid, checkins⟩) ::
      fieldRecomputeUpdates comp gid rule checkins rest

/-- `recompute_scores_for_rule(competition_id, checkpoint_id, group_id)`
from `scores.py`, with the rule passed explicitly in place of its query.
With an active `time_race` rule the normalized score replaces each scored
cohort entry's total; otherwise every cohort entry's total is recomputed
through `_compute_total` with the rule. -/
def recompute_scores_for_rule (st : St) (comp cp gid : ℕ) (rule : Option Rule) : St :=
  match latestEntries st comp cp gid with
  | [] => st
  | e0 :: es =>
    match ruleTimeRace rule with
    | some (tr, scp, ecp) =>
      let minP := (to_number tr.minPoints).getD 0
      let maxP := (to_number tr.maxPoints).getD 0
      let scores := compute_time_race_scores_from_checkins ((e0 :: es).map (·.teamId))
        st.checkins comp scp ecp minP maxP
      { st with entries := applyTotals (ruleChangeUpdates scores (e0 :: es)) st.entries }
    | none =>
      { st with entries :=
          applyTotals (fieldRecomputeUpdates comp gid rule st.checkins (e0 :: es)) st.entries }

/-- There is already a checkin of `(comp, team, cp)` —
`Checkin.query.filter_by(...).first()` in `ScoreSubmit.post`. -/
def hasCheckin (comp team cp : ℕ) : List CheckinRec → Prop
  | [] => False
  | c :: rest => (c.competitionId = comp ∧ c.teamId = team ∧ c.checkpointId = cp) ∨
      hasCheckin comp team cp rest

instance : ∀ cs, Decidable (hasCheckin comp team cp cs)
  | [] => by unfold hasCheckin; infer_instance
  | _ :: cs =>
    haveI := @instDecidableHasCheckin comp team cp cs
    by unfold hasCheckin; infer_instance

/-- The write phase of `ScoreSubmit.post` up to and including the insert of
the new `ScoreEntry`: create the checkin if absent (with timestamp `now`,
never touching an existing one), compute the submission's own total, and
append the new entry. -/
def submitStage1 (st : St) (comp team cp gid : ℕ) (fields : List (String × Val))
    (pointsHeader : Option String) (rule : Option Rule) (now : ℚ) (newId createdAt : ℕ) : St :=
  let checkins1 :=
    if hasCheckin comp team cp st.checkins then st.checkins
    else st.checkins ++ [⟨comp, team, cp, now⟩]
  let total := compute_total fields pointsHeader rule ⟨some team, some comp, some gid, checkins1⟩
  { st with
    checkins := checkins1,
    entries := st.entries ++ [⟨newId, comp, team, cp, fields, total, createdAt⟩] }

/-- The new total an entry receives in the time-race recompute loop of
`ScoreSubmit.post`: its field-rule base total (`base_total or 0.0`) plus the
normalized score when its team was scored, otherwise just the base. -/
def submitEntryTotal (comp gid : ℕ) (pointsHeader : Option String) (rule : Option Rule)
    (checkins : List CheckinRec) (scores : List (ℕ × ℚ)) (e : EntryRec) : Option ℚ :=
  match lookupKey e.teamId scores with
  | some s =>
    some ((compute_total e.rawFields pointsHeader rule
      ⟨some e.teamId, some comp, some gid, checkins⟩).getD 0 + s)
  | none =>
    compute_total e.rawFields pointsHeader rule ⟨some e.teamId, some comp, some gid, checkins⟩

/-- The time-race recompute loop of `ScoreSubmit.post`: every cohort entry is
rewritten with `submitEntryTotal`. -/
def submitRecomputeUpdates (comp gid : ℕ) (pointsHeader : Option String) (rule : Option Rule)
    (checkins : List CheckinRec) (scores : List (ℕ × ℚ)) :
    List EntryRec → List (ℕ × Option ℚ)
  | [] => []
  | e :: rest =>
    (e.id, submitEntryTotal comp gid pointsHeader rule checkins scores e) ::
      submitRecomputeUpdates comp gid pointsHeader rule checkins scores rest

/-- The `max_points` the submission-triggered recompute hands to the
normalizer: `_to_number(tr.get("max_points")) or (total if total is not None
else 0.0)` — a missing or zero configured value falls back to the
submitting entry's own freshly computed total (0 when null). -/
def submitMaxPoints (tr : TimeRace) (ownTotal : Option ℚ) : ℚ :=
  match to_number tr.maxPoints with
  | some q => if q = 0 then ownTotal.getD 0 else q
  | none => ownTotal.getD 0

/-- The scoring-relevant behaviour of `ScoreSubmit.post` from `scores.py`
(after its validations): stage 1 (checkin + entry insert), then, when an
active `time_race` rule governs the checkpoint+group, the whole-cohort
recompute. `max_points` falls back to the submission's own total when
missing or zero (`_to_number(...) or (total if total is not None else 0.0)`). -/
def score_submit_post (st : St) (comp team cp gid : ℕ) (fields : List (String × Val))
    (pointsHeader : Option String) (rule : Option Rule) (now : ℚ) (newId createdAt : ℕ) : St :=
  let st1 := submitStage1 st comp team cp gid fields pointsHeader rule now newId createdAt
  match ruleTimeRace rule with
  | none => st1
  | some (tr, scp, ecp) =>
    let total := compute_total fields pointsHeader rule ⟨some team, some comp, some gid,
      st1.checkins⟩
    let minP := (to_number tr.minPoints).getD 0
    let maxP := submitMaxPoints tr total
    let entries := latestEntries st1 comp cp gid
    let scores := compute_time_race_scores_from_checkins (entries.map (·.teamId))
      st1.checkins comp scp ecp minP maxP
    { st1 with entries :=
        applyTotals (submitRecomputeUpdates comp gid pointsHeader rule st1.checkins scores
          entries) st1.entries }

example :
    ((score_submit_post
      ⟨[⟨9, 1, 1, 0⟩, ⟨9, 1, 2, 600⟩, ⟨9, 2, 1, 0⟩, ⟨9, 2, 2, 1200⟩],
       [⟨1, 9, 1, 3, [("score", .num 40)], some 40, 1⟩],
       [⟨1, 5, true⟩, ⟨2, 5, true⟩]⟩
      9 2 3 5 [("score", .num 40)] none
      (some ⟨[("score", .passthrough)], [], some ⟨some 1, some 2, .num 0, .num 100⟩⟩)
      50 10 5).entries.map (fun e => (e.id, e.total))) = [(1, some 140), (10, some 40)] := by
  simp [score_submit_post, submitStage1, hasCheckin, compute_total, fieldRulesTotal,
    evalFields, evalField, keysOf, dropDeadTime, totalsOver, fallbackSum, sumUsed, lookupKey,
    apply_field_rule, to_number, ruleTimeRace,
    truthyId, latestEntries, cohortFilter, activeInGroup, sortByCreatedDesc, insertEntryDesc,
    dedupByTeam, compute_time_race_scores_from_checkins, durationsOf, durOf, minTs, tsList,
    foldMin, foldMax, submitRecomputeUpdates, submitEntryTotal, submitMaxPoints, applyTotals]
  norm_num [min_def, max_def]

/-- C4: in `_compute_total`, an explicit points field overrides the
rule-computed result: whenever `raw_fields` contains a field literally named
`"points"` whose value numerically coerces to `n`, the returned total is `n`
for every rule; and when `"points"` is absent but the configured points
header is present with a value coercing to `n`, the returned total is
likewise `n` for every rule. -/
theorem C4_points_override :
    (∀ (values : List (String × Val)) (pointsHeader : Option String) (rule : Option Rule)
        (ctx : Ctx) (v : Val) (n : ℚ),
      lookupKey "points" values = some v → to_number v = some n →
      compute_total values pointsHeader rule ctx = some n) ∧
    (∀ (values : List (String × Val)) (h : String) (rule : Option Rule) (ctx : Ctx)
        (v : Val) (n : ℚ),
      lookupKey "points" values = none → h ≠ "" → lookupKey h values = some v →
      to_number v = some n →
      compute_total values (some h) rule ctx = some n) := by
  constructor
  · intro values ph rule ctx v n hp hn
    simp [compute_total, hp, hn]
  · intro values h rule ctx v n hp hne hh hn
    simp [compute_total, hp, hne, hh, hn]

/-- Witness for C4: a rule that computes 40 from the raw measurements is
overridden by `points = 99`, and by a points-header value 77. -/
theorem C4_points_override_witness :
    compute_total [("a", .num 25), ("b", .num 15), ("points", .num 99)] none
      (some ⟨[("a", .passthrough), ("b", .passthrough)], [], none⟩) ⟨none, none, none, []⟩
      = some 99 ∧
    compute_total [("a", .num 40), ("hdr", .num 77)] (some "hdr")
      (some ⟨[("a", .passthrough)], [], none⟩) ⟨none, none, none, []⟩ = some 77 := by
  constructor
  · exact C4_points_override.1 _ _ _ _ (.num 99) 99 (by simp [lookupKey])
      (by simp [to_number])
  · exact C4_points_override.2 _ _ _ _ (.num 77) 77 (by simp [lookupKey]) (by simp)
      (by simp [lookupKey]) (by simp [to_number])

/-- C8: the deviation field rule yields a null contribution (never an
exception — the evaluator is a total function) whenever the input does not
coerce (null and the empty string included) or `target`, `max_points` or
`penalty_points` is missing, or `penalty_distance` is missing or zero; with
all parameters present it returns
`max_points − (|value − target| / penalty_distance) * penalty_points`,
raised to `min_points` when `min_points` is given. -/
theorem C8_deviation_rule :
    ∀ (v target maxP pp pd minP : Val) (ctx : Ctx),
      ((to_number v = none ∨ to_number target = none ∨ to_number maxP = none ∨
        to_number pp = none ∨ to_number pd = none ∨ to_number pd = some 0) →
        apply_field_rule v (.deviation target maxP pp pd minP) ctx = none) ∧
      (∀ (x t m p d : ℚ), to_number v = some x → to_number target = some t →
        to_number maxP = some m → to_number pp = some p → to_number pd = some d → d ≠ 0 →
        apply_field_rule v (.deviation target maxP pp pd minP) ctx =
          some (match to_number minP with
            | some mn => max (m - |x - t| / d * p) mn
            | none => m - |x - t| / d * p)) := by
  intro v target maxP pp pd minP ctx
  constructor
  · intro h
    rcases hv : to_number v with _ | x <;>
      rcases ht : to_number target with _ | t <;>
        rcases hm : to_number maxP with _ | m <;>
          rcases hp : to_number pp with _ | p <;>
            rcases hd : to_number pd with _ | d <;>
              simp_all [apply_field_rule]
  · intro x t m p d hx ht hm hp hd hdne
    cases hmn : to_number minP <;>
      simp [apply_field_rule, hx, ht, hm, hp, hd, hdne, hmn]

/-- Witness for C8: value 12 against target 10 with penalty 5 per unit
distance from max 50 gives 40; a zero `penalty_distance` and a null input
give null. -/
theorem C8_deviation_rule_witness :
    apply_field_rule (.num 12) (.deviation (.num 10) (.num 50) (.num 5) (.num 1) .null)
      ⟨none, none, none, []⟩ = some 40 ∧
    apply_field_rule (.num 12) (.deviation (.num 10) (.num 50) (.num 5) (.num 0) .null)
      ⟨none, none, none, []⟩ = none ∧
    apply_field_rule .null (.deviation (.num 10) (.num 50) (.num 5) (.num 1) .null)
      ⟨none, none, none, []⟩ = none := by
  refine ⟨?_, ?_, ?_⟩
  · have h := (C8_deviation_rule (.num 12) (.num 10) (.num 50) (.num 5) (.num 1) .null
      ⟨none, none, none, []⟩).2 12 10 50 5 1 (by simp [to_number]) (by simp [to_number])
      (by simp [to_number]) (by simp [to_number]) (by simp [to_number]) (by norm_num)
    rw [h]
    norm_num [to_number]
  · exact (C8_deviation_rule (.num 12) (.num 10) (.num 50) (.num 5) (.num 0) .null
      ⟨none, none, none, []⟩).1 (by simp [to_number])
  · exact (C8_deviation_rule .null (.num 10) (.num 50) (.num 5) (.num 1) .null
      ⟨none, none, none, []⟩).1 (by simp [to_number])

/-- C10: in `_compute_total`, the literal `"points"` field is applied after
the configured points header, so it takes precedence (the result does not
depend on the header at all once `"points"` is present); and when the
winning override value does not numerically coerce, the result is not
pinned to null — it falls through to the fallback sum of the coercible raw
fields other than `"time"` and `"dead_time"`. -/
theorem C10_override_last_wins_and_falls_through :
    (∀ (values : List (String × Val)) (pointsHeader : Option String) (rule : Option Rule)
        (ctx : Ctx) (v : Val),
      lookupKey "points" values = some v →
      compute_total values pointsHeader rule ctx = compute_total values none rule ctx) ∧
    (∀ (values : List (String × Val)) (pointsHeader : Option String) (rule : Option Rule)
        (ctx : Ctx) (v : Val),
      lookupKey "points" values = some v → to_number v = none →
      compute_total values pointsHeader rule ctx = fallbackSum values) ∧
    (∀ (values : List (String × Val)) (h : String) (rule : Option Rule) (ctx : Ctx) (w : Val),
      lookupKey "points" values = none → h ≠ "" → lookupKey h values = some w →
      to_number w = none →
      compute_total values (some h) rule ctx = fallbackSum values) := by
  refine ⟨?_, ?_, ?_⟩
  · intro values ph rule ctx v hp
    simp [compute_total, hp]
  · intro values ph rule ctx v hp hn
    simp [compute_total, hp, hn]
  · intro values h rule ctx w hp hne hh hn
    simp [compute_total, hp, hne, hh, hn]

/-- Witness for C10: with both the header field (`hdr = 50`) and an
uncoercible `points = ""` present, the header is ignored, the override does
not pin the result to null, and the fallback sums the coercible fields
(`hdr` included, `time` excluded): total 57. -/
theorem C10_override_last_wins_and_falls_through_witness :
    compute_total [("hdr", .num 50), ("a", .num 7), ("time", .num 999), ("points", .str "")]
      (some "hdr") none ⟨none, none, none, []⟩
      = compute_total [("hdr", .num 50), ("a", .num 7), ("time", .num 999), ("points", .str "")]
        none none ⟨none, none, none, []⟩ ∧
    compute_total [("hdr", .num 50), ("a", .num 7), ("time", .num 999), ("points", .str "")]
      (some "hdr") none ⟨none, none, none, []⟩
      = fallbackSum [("hdr", .num 50), ("a", .num 7), ("time", .num 999), ("points", .str "")] ∧
    compute_total [("a", .num 7), ("hdr", .str "")] (some "hdr") none ⟨none, none, none, []⟩
      = fallbackSum [("a", .num 7), ("hdr", .str "")] ∧
    fallbackSum [("hdr", .num 50), ("a", .num 7), ("time", .num 999), ("points", .str "")]
      = some 57 := by
  refine ⟨?_, ?_, ?_, ?_⟩
  · exact C10_override_last_wins_and_falls_through.1 _ _ _ _ (.str "") (by simp [lookupKey])
  · exact C10_override_last_wins_and_falls_through.2.1 _ _ _ _ (.str "")
      (by simp [lookupKey]) (by simp [to_number])
  · exact C10_override_last_wins_and_falls_through.2.2 _ _ _ _ (.str "")
      (by simp [lookupKey]) (by simp) (by simp [lookupKey]) (by simp [to_number])
  · simp [fallbackSum, sumUsed, to_number]
    norm_num

/-- The `Checkin` rows matching `(comp, team, cp)`, in table order. -/
def checkinRows (comp team cp : ℕ) : List CheckinRec → List CheckinRec
  | [] => []
  | c :: rest =>
    if c.competitionId = comp ∧ c.teamId = team ∧ c.checkpointId = cp then
      c :: checkinRows comp team cp rest
    else checkinRows comp team cp rest

theorem checkinRows_append (comp team cp : ℕ) (l m : List CheckinRec) :
    checkinRows comp team cp (l ++ m) =
      checkinRows comp team cp l ++ checkinRows comp team cp m := by
  induction l with
  | nil => simp [checkinRows]
  | cons c rest ih =>
    by_cases h : c.competitionId = comp ∧ c.teamId = team ∧ c.checkpointId = cp <;>
      simp [checkinRows, h, ih]

theorem hasCheckin_iff_rows (comp team cp : ℕ) (l : List CheckinRec) :
    hasCheckin comp team cp l ↔ checkinRows comp team cp l ≠ [] := by
  induction l with
  | nil => simp [hasCheckin, checkinRows]
  | cons c rest ih =>
    by_cases h : c.competitionId = comp ∧ c.teamId = team ∧ c.checkpointId = cp <;>
      simp [hasCheckin, checkinRows, h, ih]

theorem score_submit_post_checkins (st : St) (comp team cp gid : ℕ)
    (fields : List (String × Val)) (pointsHeader : Option String) (rule : Option Rule)
    (now : ℚ) (newId createdAt : ℕ) :
    (score_submit_post st comp team cp gid fields pointsHeader rule now newId createdAt).checkins
      = (submitStage1 st comp team cp gid fields pointsHeader rule now newId
          createdAt).checkins := by
  unfold score_submit_post
  cases h : ruleTimeRace rule with
  | none => simp
  | some trc => obtain ⟨tr, scp, ecp⟩ := trc; simp

theorem submitStage1_checkins (st : St) (comp team cp gid : ℕ)
    (fields : List (String × Val)) (pointsHeader : Option String) (rule : Option Rule)
    (now : ℚ) (newId createdAt : ℕ) :
    (submitStage1 st comp team cp gid fields pointsHeader rule now newId createdAt).checkins
      = if hasCheckin comp team cp st.checkins then st.checkins
        else st.checkins ++ [⟨comp, team, cp, now⟩] := by
  unfold submitStage1
  by_cases h : hasCheckin comp team cp st.checkins <;> simp [h]

/-- C9: for every `(team, checkpoint)` pair, two Submit calls never create
two Checkin rows — if no matching row exists, after two submissions there is
exactly one, carrying the first call's timestamp (the second call reuses it
and leaves the timestamp unchanged); moreover no Submit ever modifies an
existing Checkin row: it at most appends. -/
theorem C9_checkin_uniqueness :
    (∀ (st : St) (comp team cp gid gid2 : ℕ) (fields fields2 : List (String × Val))
        (ph ph2 : Option String) (rule rule2 : Option Rule) (now now2 : ℚ)
        (nid nid2 ca ca2 : ℕ),
      checkinRows comp team cp st.checkins = [] →
      checkinRows comp team cp
        (score_submit_post
          (score_submit_post st comp team cp gid fields ph rule now nid ca)
          comp team cp gid2 fields2 ph2 rule2 now2 nid2 ca2).checkins
        = [⟨comp, team, cp, now⟩]) ∧
    (∀ (st : St) (comp team cp gid : ℕ) (fields : List (String × Val)) (ph : Option String)
        (rule : Option Rule) (now : ℚ) (nid ca : ℕ),
      ∃ suffix,
        (score_submit_post st comp team cp gid fields ph rule now nid ca).checkins
          = st.checkins ++ suffix) := by
  constructor
  · intro st comp team cp gid gid2 fields fields2 ph ph2 rule rule2 now now2 nid nid2 ca ca2 h0
    have hnot : ¬ hasCheckin comp team cp st.checkins := by
      rw [hasCheckin_iff_rows, h0]; simp
    have h1 :
        (score_submit_post st comp team cp gid fields ph rule now nid ca).checkins
          = st.checkins ++ [⟨comp, team, cp, now⟩] := by
      rw [score_submit_post_checkins, submitStage1_checkins, if_neg hnot]
    have hrows1 :
        checkinRows comp team cp
          (score_submit_post st comp team cp gid fields ph rule now nid ca).checkins
          = [⟨comp, team, cp, now⟩] := by
      rw [h1, checkinRows_append, h0]
      simp [checkinRows]
    have hhas1 :
        hasCheckin comp team cp
          (score_submit_post st comp team cp gid fields ph rule now nid ca).checkins := by
      rw [hasCheckin_iff_rows, hrows1]; simp
    rw [score_submit_post_checkins, submitStage1_checkins, if_pos hhas1, hrows1]
  · intro st comp team cp gid fields ph rule now nid ca
    rw [score_submit_post_checkins, submitStage1_checkins]
    by_cases h : hasCheckin comp team cp st.checkins
    · exact ⟨[], by simp [h]⟩
    · exact ⟨[⟨comp, team, cp, now⟩], by simp [h]⟩

/-- Witness for C9: a fresh state gets exactly one checkin row for
`(team 1, checkpoint 3)` after two submissions, stamped with the first
call's time 50, and a submission only ever appends to the checkin table. -/
theorem C9_checkin_uniqueness_witness :
    checkinRows 9 1 3
      (score_submit_post
        (score_submit_post ⟨[], [], [⟨1, 5, true⟩]⟩ 9 1 3 5 [("points", .num 7)] none none
          50 10 1)
        9 1 3 5 [("points", .num 8)] none none 60 11 2).checkins
      = [⟨9, 1, 3, 50⟩] ∧
    ∃ suffix,
      (score_submit_post ⟨[⟨9, 1, 3, 42⟩], [], []⟩ 9 1 3 5 [] none none 70 12 3).checkins
        = [⟨9, 1, 3, 42⟩] ++ suffix := by
  constructor
  · exact C9_checkin_uniqueness.1 ⟨[], [], [⟨1, 5, true⟩]⟩ 9 1 3 5 5 _ _ none none none none
      50 60 10 11 1 2 (by simp [checkinRows])
  · exact C9_checkin_uniqueness.2 ⟨[⟨9, 1, 3, 42⟩], [], []⟩ 9 1 3 5 [] none none 70 12 3

theorem foldMin_le_init (l : List ℚ) : ∀ a : ℚ, foldMin a l ≤ a := by
  induction l with
  | nil => intro a; simp [foldMin]
  | cons x rest ih =>
    intro a
    calc foldMin (min a x) rest ≤ min a x := ih (min a x)
    _ ≤ a := min_le_left a x

theorem foldMin_le_mem (l : List ℚ) : ∀ a x : ℚ, x ∈ l → foldMin a l ≤ x := by
  induction l with
  | nil => intro a x hx; cases hx
  | cons y rest ih =>
    intro a x hx
    rcases List.mem_cons.mp hx with h | h
    · subst h
      calc foldMin (min a x) rest ≤ min a x := foldMin_le_init rest (min a x)
      _ ≤ x := min_le_right a x
    · exact ih (min a y) x h

theorem foldMin_eq_init_or_mem (l : List ℚ) : ∀ a : ℚ, foldMin a l = a ∨ foldMin a l ∈ l := by
  induction l with
  | nil => intro a; left; rfl
  | cons x rest ih =>
    intro a
    rcases ih (min a x) with h | h
    · rcases min_choice a x with hm | hm
      · left; rw [foldMin, h, hm]
      · right; rw [foldMin, h, hm]; exact List.mem_cons_self x rest
    · right
      rw [foldMin]
      exact List.mem_cons_of_mem x h

theorem foldMax_init_le (l : List ℚ) : ∀ a : ℚ, a ≤ foldMax a l := by
  induction l with
  | nil => intro a; simp [foldMax]
  | cons x rest ih =>
    intro a
    calc a ≤ max a x := le_max_left a x
    _ ≤ foldMax (max a x) rest := ih (max a x)

theorem foldMax_mem_le (l : List ℚ) : ∀ a x : ℚ, x ∈ l → x ≤ foldMax a l := by
  induction l with
  | nil => intro a x hx; cases hx
  | cons y rest ih =>
    intro a x hx
    rcases List.mem_cons.mp hx with h | h
    · subst h
      calc x ≤ max a x := le_max_right a x
      _ ≤ foldMax (max a x) rest := foldMax_init_le rest (max a x)
    · exact ih (max a y) x h

theorem foldMax_eq_init_or_mem (l : List ℚ) : ∀ a : ℚ, foldMax a l = a ∨ foldMax a l ∈ l := by
  induction l with
  | nil => intro a; left; rfl
  | cons x rest ih =>
    intro a
    rcases ih (max a x) with h | h
    · rcases max_choice a x with hm | hm
      · left; rw [foldMax, h, hm]
      · right; rw [foldMax, h, hm]; exact List.mem_cons_self x rest
    · right
      rw [foldMax]
      exact List.mem_cons_of_mem x h

theorem mem_durationsOf {checkins : List CheckinRec} {comp scp ecp : ℕ} {ids : List ℕ}
    {t : ℕ} {d : ℚ} :
    (t, d) ∈ durationsOf checkins comp scp ecp ids ↔
      t ∈ ids ∧ durOf checkins comp scp ecp t = some d := by
  induction ids with
  | nil => simp [durationsOf]
  | cons a rest ih =>
    cases h : durOf checkins comp scp ecp a with
    | none =>
      simp only [durationsOf, h, List.mem_cons]
      rw [ih]
      constructor
      · rintro ⟨ht, hd⟩
        exact ⟨Or.inr ht, hd⟩
      · rintro ⟨ht | ht, hd⟩
        · subst ht; rw [h] at hd; cases hd
        · exact ⟨ht, hd⟩
    | some d0 =>
      simp only [durationsOf, h, List.mem_cons]
      constructor
      · rintro (hmem | hmem)
        · obtain ⟨h1, h2⟩ := Prod.mk.injEq .. ▸ hmem
          refine ⟨Or.inl h1, ?_⟩
          subst h1 h2
          exact h
        · obtain ⟨ht, hd⟩ := ih.mp hmem
          exact ⟨Or.inr ht, hd⟩
      · rintro ⟨ht | ht, hd⟩
        · subst ht
          rw [h] at hd
          injection hd with hd0
          subst hd0
          exact Or.inl rfl
        · exact Or.inr (ih.mpr ⟨ht, hd⟩)

theorem lookupKey_map_snd {ds : List (ℕ × ℚ)} (f : ℚ → ℚ) {t : ℕ} {d : ℚ}
    (hmem : (t, d) ∈ ds) (hfun : ∀ p ∈ ds, ∀ q ∈ ds, p.1 = q.1 → p.2 = q.2) :
    lookupKey t (ds.map (fun p => (p.1, f p.2))) = some (f d) := by
  induction ds with
  | nil => cases hmem
  | cons p rest ih =>
    rcases List.mem_cons.mp hmem with heq | hmem'
    · subst heq
      simp [lookupKey]
    · by_cases hk : p.1 = t
      · have hp2 : p.2 = d :=
          hfun p (List.mem_cons_self p rest) (t, d) (List.mem_cons_of_mem p hmem') hk
        simp [lookupKey, hk, hp2]
      · have hfun' : ∀ u ∈ rest, ∀ w ∈ rest, u.1 = w.1 → u.2 = w.2 := fun u hu w hw =>
          hfun u (List.mem_cons_of_mem p hu) w (List.mem_cons_of_mem p hw)
        simp [lookupKey, hk, ih hmem' hfun']

/-- C2: the relative race normalizer. Over a cohort whose qualifying
durations (both checkins present, end not before start) have
`min_d < max_d`, every qualifying team `t` with duration `d` is assigned
`max_points − ((d − min_d) / (max_d − min_d)) * (max_points − min_points)`;
when all qualifying durations are equal, every qualifying team receives
`max_points`; and the 10/20/30-minute three-team cohort with
`min_points = 0`, `max_points = 100` scores 100, 50, 0. -/
theorem C2_relative_race_normalizer :
    (∀ (teamIds : List ℕ) (checkins : List CheckinRec) (comp scp ecp : ℕ) (minP maxP : ℚ)
        (t tmin tmax : ℕ) (d dmin dmax : ℚ),
      (t, d) ∈ durationsOf checkins comp scp ecp teamIds →
      (tmin, dmin) ∈ durationsOf checkins comp scp ecp teamIds →
      (tmax, dmax) ∈ durationsOf checkins comp scp ecp teamIds →
      (∀ p ∈ durationsOf checkins comp scp ecp teamIds, dmin ≤ p.2 ∧ p.2 ≤ dmax) →
      dmin < dmax →
      lookupKey t
          (compute_time_race_scores_from_checkins teamIds checkins comp scp ecp minP maxP)
        = some (maxP - (d - dmin) / (dmax - dmin) * (maxP - minP))) ∧
    (∀ (teamIds : List ℕ) (checkins : List CheckinRec) (comp scp ecp : ℕ) (minP maxP : ℚ)
        (t : ℕ) (d : ℚ),
      (t, d) ∈ durationsOf checkins comp scp ecp teamIds →
      (∀ p ∈ durationsOf checkins comp scp ecp teamIds,
        ∀ q ∈ durationsOf checkins comp scp ecp teamIds, p.2 = q.2) →
      lookupKey t
          (compute_time_race_scores_from_checkins teamIds checkins comp scp ecp minP maxP)
        = some maxP) ∧
    compute_time_race_scores_from_checkins [1, 2, 3]
      [⟨9, 1, 11, 0⟩, ⟨9, 1, 12, 600⟩, ⟨9, 2, 11, 0⟩, ⟨9, 2, 12, 1200⟩,
       ⟨9, 3, 11, 0⟩, ⟨9, 3, 12, 1800⟩]
      9 11 12 0 100 = [(1, 100), (2, 50), (3, 0)] := by
  refine ⟨?_, ?_, ?_⟩
  · intro teamIds checkins comp scp ecp minP maxP t tmin tmax d dmin dmax hmem hmin hmax
      hbounds hlt
    have hfun : ∀ p ∈ durationsOf checkins comp scp ecp teamIds,
        ∀ q ∈ durationsOf checkins comp scp ecp teamIds, p.1 = q.1 → p.2 = q.2 := by
      intro p hp q hq hk
      have hp2 : (p.1, p.2) ∈ durationsOf checkins comp scp ecp teamIds := by
        simpa using hp
      have hq2 : (q.1, q.2) ∈ durationsOf checkins comp scp ecp teamIds := by
        simpa using hq
      have h1 := (mem_durationsOf.mp hp2).2
      have h2 := (mem_durationsOf.mp hq2).2
      rw [hk, h2] at h1
      injection h1 with h1
      exact h1.symm
    cases teamIds with
    | nil => simp [durationsOf] at hmem
    | cons t0 rest =>
      rcases hds : durationsOf checkins comp scp ecp (t0 :: rest) with _ | ⟨d0, rest'⟩
      · rw [hds] at hmem; cases hmem
      · rw [hds] at hmem hmin hmax hbounds hfun
        have hminD : foldMin d0.2 (rest'.map Prod.snd) = dmin := by
          apply le_antisymm
          · rcases List.mem_cons.mp hmin with h | h
            · have hd0 : d0.2 = dmin := by rw [← h]
              rw [← hd0]
              exact foldMin_le_init _ _
            · exact foldMin_le_mem _ _ _ (List.mem_map_of_mem Prod.snd h)
          · rcases foldMin_eq_init_or_mem (rest'.map Prod.snd) d0.2 with h | h
            · rw [h]
              exact (hbounds d0 (List.mem_cons_self _ _)).1
            · obtain ⟨p, hp, hpd⟩ := List.mem_map.mp h
              rw [← hpd]
              exact (hbounds p (List.mem_cons_of_mem _ hp)).1
        have hmaxD : foldMax d0.2 (rest'.map Prod.snd) = dmax := by
          apply le_antisymm
          · rcases foldMax_eq_init_or_mem (rest'.map Prod.snd) d0.2 with h | h
            · rw [h]
              exact (hbounds d0 (List.mem_cons_self _ _)).2
            · obtain ⟨p, hp, hpd⟩ := List.mem_map.mp h
              rw [← hpd]
              exact (hbounds p (List.mem_cons_of_mem _ hp)).2
          · rcases List.mem_cons.mp hmax with h | h
            · have hd0 : d0.2 = dmax := by rw [← h]
              rw [← hd0]
              exact foldMax_init_le _ _
            · exact foldMax_mem_le _ _ _ (List.mem_map_of_mem Prod.snd h)
        simp only [compute_time_race_scores_from_checkins, hds]
        rw [hminD, hmaxD, if_neg (ne_of_gt hlt)]
        exact lookupKey_map_snd (fun y => maxP - (y - dmin) / (dmax - dmin) * (maxP - minP))
          hmem hfun
  · intro teamIds checkins comp scp ecp minP maxP t d hmem hall
    cases teamIds with
    | nil => simp [durationsOf] at hmem
    | cons t0 rest =>
      rcases hds : durationsOf checkins comp scp ecp (t0 :: rest) with _ | ⟨d0, rest'⟩
      · rw [hds] at hmem; cases hmem
      · rw [hds] at hmem hall
        have hmemmap : ∀ y ∈ rest'.map Prod.snd, y = d0.2 := by
          intro y hy
          obtain ⟨p, hp, hpy⟩ := List.mem_map.mp hy
          rw [← hpy]
          exact hall p (List.mem_cons_of_mem _ hp) d0 (List.mem_cons_self _ _)
        have hminD : foldMin d0.2 (rest'.map Prod.snd) = d0.2 := by
          rcases foldMin_eq_init_or_mem (rest'.map Prod.snd) d0.2 with h | h
          · exact h
          · exact hmemmap _ h
        have hmaxD : foldMax d0.2 (rest'.map Prod.snd) = d0.2 := by
          rcases foldMax_eq_init_or_mem (rest'.map Prod.snd) d0.2 with h | h
          · exact h
          · exact hmemmap _ h
        simp only [compute_time_race_scores_from_checkins, hds]
        rw [hminD, hmaxD, if_pos rfl]
        have hfun : ∀ p ∈ d0 :: rest', ∀ q ∈ d0 :: rest', p.1 = q.1 → p.2 = q.2 :=
          fun p hp q hq _ => hall p hp q hq
        exact lookupKey_map_snd (fun _ => maxP) hmem hfun
  · simp [compute_time_race_scores_from_checkins, durationsOf, durOf, minTs, tsList,
      foldMin, foldMax]
    norm_num [foldMin, foldMax, min_def, max_def]

/-- Witness for C2: in the 10/20/30-minute cohort, team 2 (duration 1200 s
between min 600 s and max 1800 s) is assigned exactly the linear formula
value 50; in an all-tied two-team cohort both teams get `max_points`. -/
theorem C2_relative_race_normalizer_witness :
    lookupKey 2
      (compute_time_race_scores_from_checkins [1, 2, 3]
        [⟨9, 1, 11, 0⟩, ⟨9, 1, 12, 600⟩, ⟨9, 2, 11, 0⟩, ⟨9, 2, 12, 1200⟩,
         ⟨9, 3, 11, 0⟩, ⟨9, 3, 12, 1800⟩]
        9 11 12 0 100)
      = some (100 - (1200 - 600) / (1800 - 600) * (100 - 0)) ∧
    lookupKey 4
      (compute_time_race_scores_from_checkins [4, 5]
        [⟨9, 4, 11, 0⟩, ⟨9, 4, 12, 600⟩, ⟨9, 5, 11, 100⟩, ⟨9, 5, 12, 700⟩]
        9 11 12 20 80)
      = some 80 := by
  constructor
  · exact C2_relative_race_normalizer.1 [1, 2, 3] _ 9 11 12 0 100 2 1 3 1200 600 1800
      (by norm_num [durationsOf, durOf, minTs, tsList, foldMin])
      (by norm_num [durationsOf, durOf, minTs, tsList, foldMin])
      (by norm_num [durationsOf, durOf, minTs, tsList, foldMin])
      (by
        intro p hp
        norm_num [durationsOf, durOf, minTs, tsList, foldMin] at hp
        rcases hp with h | h | h <;> rw [h] <;> norm_num)
      (by norm_num)
  · exact C2_relative_race_normalizer.2.1 [4, 5] _ 9 11 12 20 80 4 600
      (by norm_num [durationsOf, durOf, minTs, tsList, foldMin])
      (by
        intro p hp q hq
        norm_num [durationsOf, durOf, minTs, tsList, foldMin] at hp hq
        rcases hp with h | h <;> rcases hq with h2 | h2 <;> rw [h, h2])

/-- The checkin rows belonging to `team` (any checkpoint, any competition). -/
def teamCheckins (team : ℕ) : List CheckinRec → List CheckinRec
  | [] => []
  | c :: rest =>
    if c.teamId = team then c :: teamCheckins team rest else teamCheckins team rest

theorem tsList_teamCheckins (comp cp team : ℕ) (l : List CheckinRec) :
    tsList comp cp team (teamCheckins team l) = tsList comp cp team l := by
  induction l with
  | nil => rfl
  | cons c rest ih =>
    by_cases ht : c.teamId = team
    · by_cases hm : c.competitionId = comp ∧ c.checkpointId = cp ∧ c.teamId = team
      · simp [teamCheckins, ht, tsList, hm, ih]
      · simp [teamCheckins, ht, tsList, hm, ih]
    · have hm : ¬(c.competitionId = comp ∧ c.checkpointId = cp ∧ c.teamId = team) := by
        rintro ⟨_, _, h⟩
        exact ht h
      simp [teamCheckins, ht, tsList, hm, ih]

theorem matchingCps_teamCheckins (comp team : ℕ) (ids : List ℕ) (l : List CheckinRec) :
    matchingCps comp team ids (teamCheckins team l) = matchingCps comp team ids l := by
  induction l with
  | nil => rfl
  | cons c rest ih =>
    by_cases ht : c.teamId = team
    · by_cases hm : c.competitionId = comp ∧ c.teamId = team ∧ c.checkpointId ∈ ids
      · simp [teamCheckins, ht, matchingCps, hm, ih]
      · simp [teamCheckins, ht, matchingCps, hm, ih]
    · have hm : ¬(c.competitionId = comp ∧ c.teamId = team ∧ c.checkpointId ∈ ids) := by
        rintro ⟨_, h, _⟩
        exact ht h
      simp [teamCheckins, ht, matchingCps, hm, ih]

theorem minTs_teamCheckins (comp cp team : ℕ) (l : List CheckinRec) :
    minTs (teamCheckins team l) comp cp team = minTs l comp cp team := by
  unfold minTs
  rw [tsList_teamCheckins]

theorem globalFoundPoints_teamCheckins (comp team : ℕ) (ids : List ℕ)
    (l : List CheckinRec) (g : GlobalRule) :
    globalFoundPoints comp team ids (teamCheckins team l) g
      = globalFoundPoints comp team ids l g := by
  simp only [globalFoundPoints, matchingCps_teamCheckins]

theorem globalTimePoints_teamCheckins (comp team : ℕ) (l : List CheckinRec) (g : GlobalRule) :
    globalTimePoints comp team (teamCheckins team l) g = globalTimePoints comp team l g := by
  simp only [globalTimePoints, minTs_teamCheckins]

theorem compute_global_contrib_timePoints (comp team : ℕ) (ids : List ℕ)
    (checkins : List CheckinRec) (g : GlobalRule) :
    (compute_global_contrib comp team ids checkins (some g)).timePoints
      = globalTimePoints comp team checkins g := by
  unfold compute_global_contrib
  rcases hf : globalFoundPoints comp team ids checkins g with _ | f <;>
    rcases ht : globalTimePoints comp team checkins g with _ | t <;> simp [hf, ht]

theorem ite_lt_max (a b : ℚ) : (if a < b then b else a) = max a b := by
  rcases le_or_lt b a with h | h
  · rw [if_neg (not_lt.mpr h), max_eq_left h]
  · rw [if_pos h, max_eq_right (le_of_lt h)]

/-- C5 as stated fails on the code: the `min_points` floor is applied in
*both* branches of the threshold normalizer, so a team at or below
`threshold_minutes` receives `min_points` rather than `max_points` whenever
`min_points > max_points`. Concretely (min_points 200, max_points 100,
30 min ≤ 60 min threshold) the stored time points are 200, not 100. -/
theorem C5_threshold_normalizer_cex :
    (compute_global_contrib 9 7 [] [⟨9, 7, 1, 0⟩, ⟨9, 7, 2, 1800⟩]
        (some ⟨none, some ⟨some 1, some 2, .num 100, .num 60, .num 10, .num 10,
          .num 200⟩⟩)).timePoints
      = some 200 ∧ (200 : ℚ) ≠ 100 := by
  constructor
  · simp [compute_global_contrib, globalFoundPoints, globalTimePoints, truthyId, to_number,
      minTs, tsList, foldMin]
    norm_num
  · norm_num

/-- C5 amended: for a complete global `time` rule (both checkpoint ids
truthy, `max_points`, `threshold_minutes`, `penalty_points` numeric and
`penalty_minutes` numeric and non-zero) and a team with earliest checkins at
the start and end checkpoints: at or below the threshold the result is
`max max_points min_points` (the floor applies here too — this is the one
divergence from the claim, which says plain `max_points`); over the
threshold it is `max_points − ((duration − threshold) / penalty_minutes) *
penalty_points`, floored at `min_points` (default 0). The result is
cohort-independent: it only reads the team's own checkin rows. -/
theorem C5_threshold_normalizer_amended :
    (∀ (comp team : ℕ) (g : GlobalRule) (t : GlobalTimeRule) (scp ecp : ℕ)
        (maxP thr pm pp sTs eTs : ℚ) (checkins : List CheckinRec),
      g.time = some t →
      truthyId t.startCheckpointId = some scp →
      truthyId t.endCheckpointId = some ecp →
      to_number t.maxPoints = some maxP →
      to_number t.thresholdMinutes = some thr →
      to_number t.penaltyMinutes = some pm →
      pm ≠ 0 →
      to_number t.penaltyPoints = some pp →
      minTs checkins comp scp team = some sTs →
      minTs checkins comp ecp team = some eTs →
      (((eTs - sTs) / 60 ≤ thr →
        globalTimePoints comp team checkins g
          = some (max maxP ((to_number t.minPoints).getD 0))) ∧
       (thr < (eTs - sTs) / 60 →
        globalTimePoints comp team checkins g
          = some (max (maxP - ((eTs - sTs) / 60 - thr) / pm * pp)
              ((to_number t.minPoints).getD 0))))) ∧
    (∀ (comp team : ℕ) (groupCpIds : List ℕ) (checkins : List CheckinRec)
        (gr : Option GlobalRule),
      compute_global_contrib comp team groupCpIds (teamCheckins team checkins) gr
        = compute_global_contrib comp team groupCpIds checkins gr) ∧
    (∀ (comp team : ℕ) (ids : List ℕ) (checkins : List CheckinRec) (g : GlobalRule),
      (compute_global_contrib comp team ids checkins (some g)).timePoints
        = globalTimePoints comp team checkins g) := by
  refine ⟨?_, ?_, ?_⟩
  · intro comp team g t scp ecp maxP thr pm pp sTs eTs checkins hg hscp hecp hmax hthr hpm
      hpmne hpp hsts hets
    constructor
    · intro hle
      simp only [globalTimePoints, hg, hscp, hecp, hmax, hthr, hpm, hpp, hsts, hets,
        if_neg hpmne, if_pos hle]
      rw [ite_lt_max]
    · intro hgt
      have hnle : ¬((eTs - sTs) / 60 ≤ thr) := not_le.mpr hgt
      simp only [globalTimePoints, hg, hscp, hecp, hmax, hthr, hpm, hpp, hsts, hets,
        if_neg hpmne, if_neg hnle]
      rw [max_eq_right (le_of_lt (sub_pos.mpr hgt)), ite_lt_max]
  · intro comp team groupCpIds checkins gr
    cases gr with
    | none => rfl
    | some g =>
      simp only [compute_global_contrib, globalFoundPoints_teamCheckins,
        globalTimePoints_teamCheckins]
  · intro comp team ids checkins g
    exact compute_global_contrib_timePoints comp team ids checkins g

/-- Witness for C5 amended: a 30-minute run against a 60-minute threshold
yields `max max_points min_points` (here 100); a 70-minute run — exactly one
full 10-minute penalty block over — yields `max_points − penalty_points`
(90, floored at the default 0); and the computation is unchanged when every
other team's checkin rows are dropped. -/
theorem C5_threshold_normalizer_amended_witness :
    globalTimePoints 9 7 [⟨9, 7, 1, 0⟩, ⟨9, 7, 2, 1800⟩]
      ⟨none, some ⟨some 1, some 2, .num 100, .num 60, .num 10, .num 10, .null⟩⟩
      = some (max 100 ((to_number .null).getD 0)) ∧
    globalTimePoints 9 7 [⟨9, 7, 1, 0⟩, ⟨9, 7, 2, 4200⟩]
      ⟨none, some ⟨some 1, some 2, .num 100, .num 60, .num 10, .num 10, .null⟩⟩
      = some (max (100 - ((4200 - 0) / 60 - 60) / 10 * 10) ((to_number .null).getD 0)) ∧
    (max (100 - ((4200 - 0) / 60 - 60) / 10 * 10) ((to_number Val.null).getD 0) : ℚ)
      = 100 - 10 ∧
    compute_global_contrib 9 7 [1, 2]
      (teamCheckins 7 [⟨9, 7, 1, 0⟩, ⟨9, 8, 1, 5⟩, ⟨9, 7, 2, 1800⟩, ⟨9, 8, 2, 900⟩])
      (some ⟨none, some ⟨some 1, some 2, .num 100, .num 60, .num 10, .num 10, .null⟩⟩)
      = compute_global_contrib 9 7 [1, 2]
        [⟨9, 7, 1, 0⟩, ⟨9, 8, 1, 5⟩, ⟨9, 7, 2, 1800⟩, ⟨9, 8, 2, 900⟩]
        (some ⟨none, some ⟨some 1, some 2, .num 100, .num 60, .num 10, .num 10, .null⟩⟩) := by
  refine ⟨?_, ?_, ?_, ?_⟩
  · exact ((C5_threshold_normalizer_amended.1 9 7
      ⟨none, some ⟨some 1, some 2, .num 100, .num 60, .num 10, .num 10, .null⟩⟩
      ⟨some 1, some 2, .num 100, .num 60, .num 10, .num 10, .null⟩ 1 2 100 60 10 10 0 1800
      [⟨9, 7, 1, 0⟩, ⟨9, 7, 2, 1800⟩]
      rfl (by simp [truthyId]) (by simp [truthyId]) (by simp [to_number])
      (by simp [to_number]) (by simp [to_number]) (by norm_num) (by simp [to_number])
      (by simp [minTs, tsList, foldMin]) (by simp [minTs, tsList, foldMin])).1
      (by norm_num))
  · exact ((C5_threshold_normalizer_amended.1 9 7
      ⟨none, some ⟨some 1, some 2, .num 100, .num 60, .num 10, .num 10, .null⟩⟩
      ⟨some 1, some 2, .num 100, .num 60, .num 10, .num 10, .null⟩ 1 2 100 60 10 10 0 4200
      [⟨9, 7, 1, 0⟩, ⟨9, 7, 2, 4200⟩]
      rfl (by simp [truthyId]) (by simp [truthyId]) (by simp [to_number])
      (by simp [to_number]) (by simp [to_number]) (by norm_num) (by simp [to_number])
      (by simp [minTs, tsList, foldMin]) (by simp [minTs, tsList, foldMin])).2
      (by norm_num))
  · norm_num [to_number, max_def]
  · exact C5_threshold_normalizer_amended.2.1 9 7 [1, 2] _ _


/-- Replace the value of every pair keyed `k0` (used to state that the
`"dead_time"` value is irrelevant to the rule-driven sum). -/
def setKeyVal (k0 : String) (w : Val) : List (String × Val) → List (String × Val)
  | [] => []
  | kv :: rest => (if kv.1 = k0 then (k0, w) else kv) :: setKeyVal k0 w rest

/-- Remove every pair with key `k0` from a raw-field dict. -/
def dropKey (k0 : String) : List (String × Val) → List (String × Val)
  | [] => []
  | kv :: rest => if kv.1 = k0 then dropKey k0 rest else kv :: dropKey k0 rest

theorem keysOf_evalFields (frs : List (String × FieldRule)) (ctx : Ctx)
    (values : List (String × Val)) : keysOf (evalFields frs ctx values) = keysOf values := by
  induction values with
  | nil => rfl
  | cons kv rest ih => rw [evalFields, keysOf, keysOf, ih]

theorem keysOf_setKeyVal (k0 : String) (w : Val) (values : List (String × Val)) :
    keysOf (setKeyVal k0 w values) = keysOf values := by
  induction values with
  | nil => rfl
  | cons kv rest ih =>
    rw [setKeyVal, keysOf, keysOf, ih]
    by_cases h : kv.1 = k0
    · rw [if_pos h, h]
    · rw [if_neg h]

theorem lookupKey_evalFields_setKeyVal (frs : List (String × FieldRule)) (ctx : Ctx)
    (k0 : String) (w : Val) (k : String) (hk : k ≠ k0) (values : List (String × Val)) :
    lookupKey k (evalFields frs ctx (setKeyVal k0 w values))
      = lookupKey k (evalFields frs ctx values) := by
  induction values with
  | nil => rfl
  | cons kv rest ih =>
    rw [setKeyVal, evalFields, evalFields, lookupKey, lookupKey]
    by_cases h : kv.1 = k0
    · rw [if_pos h]
      have h1 : ¬((k0, w).1 = k) := fun he => hk he.symm
      have h2 : ¬(kv.1 = k) := fun he => hk (he.symm.trans h)
      rw [if_neg h1, if_neg h2, ih]
    · rw [if_neg h]
      by_cases h2 : kv.1 = k
      · rw [if_pos h2, if_pos h2]
      · rw [if_neg h2, if_neg h2, ih]

theorem dropDeadTime_keysOf_dropKey (values : List (String × Val)) :
    dropDeadTime (keysOf (dropKey "dead_time" values)) = dropDeadTime (keysOf values) := by
  induction values with
  | nil => rfl
  | cons kv rest ih =>
    rw [dropKey, keysOf]
    by_cases h : kv.1 = "dead_time"
    · rw [if_pos h, dropDeadTime, if_pos h, ih]
    · rw [if_neg h, keysOf, dropDeadTime, dropDeadTime, if_neg h, if_neg h, ih]

theorem lookupKey_evalFields_dropKey (frs : List (String × FieldRule)) (ctx : Ctx)
    (k : String) (hk : k ≠ "dead_time") (values : List (String × Val)) :
    lookupKey k (evalFields frs ctx (dropKey "dead_time" values))
      = lookupKey k (evalFields frs ctx values) := by
  induction values with
  | nil => rfl
  | cons kv rest ih =>
    rw [dropKey]
    by_cases h : kv.1 = "dead_time"
    · have h2 : ¬(kv.1 = k) := fun he => hk (he.symm.trans h)
      rw [if_pos h, evalFields, lookupKey, if_neg h2, ih]
    · rw [if_neg h, evalFields, evalFields, lookupKey, lookupKey]
      by_cases h2 : kv.1 = k
      · rw [if_pos h2, if_pos h2]
      · rw [if_neg h2, if_neg h2, ih]

theorem mem_dropDeadTime {k : String} {ks : List String} (h : k ∈ dropDeadTime ks) :
    k ∈ ks ∧ k ≠ "dead_time" := by
  induction ks with
  | nil => cases h
  | cons k0 rest ih =>
    rw [dropDeadTime] at h
    by_cases h0 : k0 = "dead_time"
    · rw [if_pos h0] at h
      exact ⟨List.mem_cons_of_mem _ (ih h).1, (ih h).2⟩
    · rw [if_neg h0] at h
      rcases List.mem_cons.mp h with heq | hmem
      · exact ⟨List.mem_cons.mpr (Or.inl heq), heq ▸ h0⟩
      · exact ⟨List.mem_cons_of_mem _ (ih hmem).1, (ih hmem).2⟩

theorem totalsOver_congr {c1 c2 : List (String × Option ℚ)} :
    ∀ {ks : List String}, (∀ k ∈ ks, lookupKey k c1 = lookupKey k c2) →
      totalsOver c1 ks = totalsOver c2 ks := by
  intro ks
  induction ks with
  | nil => intro _; rfl
  | cons k rest ih =>
    intro h
    rw [totalsOver, totalsOver, h k (List.mem_cons_self _ _),
      ih (fun k2 hk2 => h k2 (List.mem_cons_of_mem _ hk2))]

/-- Amended C7, part of the proof kit: the value of `"dead_time"` is
irrelevant to the rule-driven sum. -/
theorem fieldRulesTotal_setDeadTime (values : List (String × Val)) (r : Rule) (ctx : Ctx)
    (w : Val) :
    fieldRulesTotal (setKeyVal "dead_time" w values) r ctx = fieldRulesTotal values r ctx := by
  unfold fieldRulesTotal
  rw [keysOf_evalFields, keysOf_evalFields, keysOf_setKeyVal]
  congr 1
  apply totalsOver_congr
  intro k hk
  exact lookupKey_evalFields_setKeyVal r.fieldRules ctx "dead_time" w k
    (mem_dropDeadTime hk).2 values

theorem fieldRulesTotal_dropKey (values : List (String × Val)) (r : Rule) (ctx : Ctx) :
    fieldRulesTotal (dropKey "dead_time" values) r ctx = fieldRulesTotal values r ctx := by
  unfold fieldRulesTotal
  by_cases htf : r.totalFields = []
  · simp only [htf, eq_self_iff_true, if_true, keysOf_evalFields]
    rw [dropDeadTime_keysOf_dropKey]
    congr 1
    apply totalsOver_congr
    intro k hk
    exact lookupKey_evalFields_dropKey r.fieldRules ctx k (mem_dropDeadTime hk).2 values
  · simp only [if_neg htf]
    congr 1
    apply totalsOver_congr
    intro k hk
    exact lookupKey_evalFields_dropKey r.fieldRules ctx k (mem_dropDeadTime hk).2 values

theorem lookupKey_append_of_some {κ α : Type} [DecidableEq κ] {k : κ} {l m : List (κ × α)}
    {v : α} (h : lookupKey k l = some v) : lookupKey k (l ++ m) = some v := by
  induction l with
  | nil => cases h
  | cons kv rest ih =>
    rw [List.cons_append, lookupKey]
    rw [lookupKey] at h
    by_cases h2 : kv.1 = k
    · rw [if_pos h2] at h ⊢
      exact h
    · rw [if_neg h2] at h ⊢
      exact ih h

theorem lookupKey_append_of_none {κ α : Type} [DecidableEq κ] {k : κ} {l m : List (κ × α)}
    (h : lookupKey k l = none) : lookupKey k (l ++ m) = lookupKey k m := by
  induction l with
  | nil => rfl
  | cons kv rest ih =>
    rw [List.cons_append, lookupKey]
    rw [lookupKey] at h
    by_cases h2 : kv.1 = k
    · rw [if_pos h2] at h
      cases h
    · rw [if_neg h2] at h ⊢
      exact ih h

theorem lookupKey_isSome_of_mem_keys {α : Type} {k : String} {l : List (String × α)}
    (h : k ∈ keysOf l) : ∃ v, lookupKey k l = some v := by
  induction l with
  | nil => cases h
  | cons kv rest ih =>
    rw [lookupKey]
    by_cases h2 : kv.1 = k
    · exact ⟨kv.2, if_pos h2⟩
    · rw [if_neg h2]
      rw [keysOf] at h
      rcases List.mem_cons.mp h with heq | hmem
      · exact absurd heq.symm h2
      · exact ih hmem

theorem lookupKey_evalFields_none (frs : List (String × FieldRule)) (ctx : Ctx) (k : String)
    (values : List (String × Val)) (h : lookupKey k values = none) :
    lookupKey k (evalFields frs ctx values) = none := by
  induction values with
  | nil => rfl
  | cons kv rest ih =>
    rw [lookupKey] at h
    rw [evalFields, lookupKey]
    by_cases h2 : kv.1 = k
    · rw [if_pos h2] at h
      cases h
    · rw [if_neg h2] at h ⊢
      exact ih h

theorem evalFields_append (frs : List (String × FieldRule)) (ctx : Ctx)
    (l m : List (String × Val)) :
    evalFields frs ctx (l ++ m) = evalFields frs ctx l ++ evalFields frs ctx m := by
  induction l with
  | nil => rfl
  | cons kv rest ih => rw [List.cons_append, evalFields, evalFields, List.cons_append, ih]

theorem keysOf_append {α : Type} (l m : List (String × α)) :
    keysOf (l ++ m) = keysOf l ++ keysOf m := by
  induction l with
  | nil => rfl
  | cons kv rest ih => rw [List.cons_append, keysOf, keysOf, List.cons_append, ih]

theorem dropDeadTime_append (a b : List String) :
    dropDeadTime (a ++ b) = dropDeadTime a ++ dropDeadTime b := by
  induction a with
  | nil => rfl
  | cons k rest ih =>
    rw [List.cons_append, dropDeadTime, dropDeadTime]
    by_cases h : k = "dead_time"
    · rw [if_pos h, if_pos h, ih]
    · rw [if_neg h, if_neg h, List.cons_append, ih]

theorem totalsOver_append (c : List (String × Option ℚ)) (ks1 ks2 : List String) :
    totalsOver c (ks1 ++ ks2) = totalsOver c ks1 ++ totalsOver c ks2 := by
  induction ks1 with
  | nil => rfl
  | cons k rest ih => rw [List.cons_append, totalsOver, totalsOver, List.cons_append, ih]

theorem sumUsed_append_some (l : List (Option ℚ)) (q : ℚ) :
    sumUsed (l ++ [some q]) = some ((sumUsed l).getD 0 + q) := by
  induction l with
  | nil => simp [sumUsed]
  | cons o rest ih =>
    cases o with
    | none =>
      rw [List.cons_append, sumUsed, ih, sumUsed]
    | some a =>
      rw [List.cons_append, sumUsed, ih, sumUsed]
      cases h : sumUsed rest with
      | none => simp [add_assoc]
      | some t => simp [add_assoc]

/-- Amended C7, contribution part: appending a fresh field (key not present,
not named `"dead_time"`) whose evaluation under its field rule is `q` adds
exactly `q` to the rule-driven sum (with the default `total_fields`). -/
theorem fieldRulesTotal_append_fresh (values : List (String × Val)) (r : Rule) (ctx : Ctx)
    (k : String) (w : Val) (q : ℚ)
    (hfresh : lookupKey k values = none) (hk : k ≠ "dead_time") (htf : r.totalFields = [])
    (heval : evalField r.fieldRules ctx k w = some q) :
    fieldRulesTotal (values ++ [(k, w)]) r ctx
      = some ((fieldRulesTotal values r ctx).getD 0 + q) := by
  unfold fieldRulesTotal
  simp only [htf, eq_self_iff_true, if_true]
  rw [evalFields_append, keysOf_append, keysOf_evalFields, keysOf_evalFields]
  have hkeys1 : keysOf [(k, w)] = [k] := rfl
  rw [hkeys1, dropDeadTime_append]
  have hdk : dropDeadTime [k] = [k] := by rw [dropDeadTime, if_neg hk]; rfl
  rw [hdk, totalsOver_append]
  have hleft :
      totalsOver (evalFields r.fieldRules ctx values ++ evalFields r.fieldRules ctx [(k, w)])
          (dropDeadTime (keysOf values))
        = totalsOver (evalFields r.fieldRules ctx values) (dropDeadTime (keysOf values)) := by
    apply totalsOver_congr
    intro k2 hk2
    have hmem : k2 ∈ keysOf (evalFields r.fieldRules ctx values) := by
      rw [keysOf_evalFields]
      exact (mem_dropDeadTime hk2).1
    obtain ⟨v, hv⟩ := lookupKey_isSome_of_mem_keys hmem
    rw [lookupKey_append_of_some hv, hv]
  have hright :
      totalsOver (evalFields r.fieldRules ctx values ++ evalFields r.fieldRules ctx [(k, w)])
          [k]
        = [some q] := by
    have hnone : lookupKey k (evalFields r.fieldRules ctx values) = none :=
      lookupKey_evalFields_none r.fieldRules ctx k values hfresh
    rw [totalsOver, lookupKey_append_of_none hnone]
    have : lookupKey k (evalFields r.fieldRules ctx [(k, w)])
        = some (evalField r.fieldRules ctx k w) := by
      rw [evalFields, evalFields, lookupKey, if_pos rfl]
    rw [this, heval]
    rfl
  rw [hleft, hright, sumUsed_append_some]

/-- C7 as stated fails on the code: the `key != "dead_time"` filter is
applied to the *explicit* `total_fields` list as well, so a field literally
named `"dead_time"` is not summed even when explicitly listed. With
`total_fields = ["dead_time", "a"]`, `dead_time = 5` and `a = 3` the total
is 3, not 5 + 3. -/
theorem C7_dead_time_cex :
    compute_total [("dead_time", .num 5), ("a", .num 3)] none
      (some ⟨[("dead_time", .passthrough), ("a", .passthrough)], ["dead_time", "a"], none⟩)
      ⟨none, none, none, []⟩ = some 3 ∧ (3 : ℚ) ≠ 5 + 3 := by
  constructor
  · simp [compute_total, fieldRulesTotal, evalFields, evalField, keysOf, dropDeadTime,
      totalsOver, fallbackSum, sumUsed, lookupKey, apply_field_rule, to_number]
  · norm_num

/-- C7 amended: a field literally named `"dead_time"` is never summed into
the rule-driven checkpoint total — not even when explicitly listed in
`total_fields`: its value is irrelevant and removing it entirely leaves the
total unchanged. Fields not named `"dead_time"` do contribute their
evaluated values: appending a fresh field whose field-rule evaluation is `q`
adds exactly `q` to the total. -/
theorem C7_dead_time_amended :
    (∀ (values : List (String × Val)) (r : Rule) (ctx : Ctx) (w : Val),
      fieldRulesTotal (setKeyVal "dead_time" w values) r ctx
        = fieldRulesTotal values r ctx) ∧
    (∀ (values : List (String × Val)) (r : Rule) (ctx : Ctx),
      fieldRulesTotal (dropKey "dead_time" values) r ctx = fieldRulesTotal values r ctx) ∧
    (∀ (values : List (String × Val)) (r : Rule) (ctx : Ctx) (k : String) (w : Val) (q : ℚ),
      lookupKey k values = none → k ≠ "dead_time" → r.totalFields = [] →
      evalField r.fieldRules ctx k w = some q →
      fieldRulesTotal (values ++ [(k, w)]) r ctx
        = some ((fieldRulesTotal values r ctx).getD 0 + q)) :=
  ⟨fieldRulesTotal_setDeadTime, fieldRulesTotal_dropKey, fieldRulesTotal_append_fresh⟩

/-- Witness for C7 amended: overwriting `dead_time`'s value, or dropping the
field, leaves the rule-driven total unchanged even though `"dead_time"` is
explicitly listed in `total_fields`; appending a fresh field `b = 4`
(pass-through) raises the total from 3 to 3 + 4. -/
theorem C7_dead_time_amended_witness :
    fieldRulesTotal
        (setKeyVal "dead_time" (.num 1000)
          [("dead_time", .num 5), ("a", .num 3)])
        ⟨[("dead_time", .passthrough), ("a", .passthrough)], ["dead_time", "a"], none⟩
        ⟨none, none, none, []⟩
      = fieldRulesTotal [("dead_time", .num 5), ("a", .num 3)]
        ⟨[("dead_time", .passthrough), ("a", .passthrough)], ["dead_time", "a"], none⟩
        ⟨none, none, none, []⟩ ∧
    fieldRulesTotal (dropKey "dead_time" [("dead_time", .num 5), ("a", .num 3)])
        ⟨[("dead_time", .passthrough), ("a", .passthrough)], ["dead_time", "a"], none⟩
        ⟨none, none, none, []⟩
      = fieldRulesTotal [("dead_time", .num 5), ("a", .num 3)]
        ⟨[("dead_time", .passthrough), ("a", .passthrough)], ["dead_time", "a"], none⟩
        ⟨none, none, none, []⟩ ∧
    fieldRulesTotal ([("dead_time", .num 5), ("a", .num 3)] ++ [("b", .num 4)])
        ⟨[("a", .passthrough)], [], none⟩ ⟨none, none, none, []⟩
      = some ((fieldRulesTotal [("dead_time", .num 5), ("a", .num 3)]
          ⟨[("a", .passthrough)], [], none⟩ ⟨none, none, none, []⟩).getD 0 + 4) := by
  refine ⟨?_, ?_, ?_⟩
  · exact C7_dead_time_amended.1 [("dead_time", .num 5), ("a", .num 3)] _ _ (.num 1000)
  · exact C7_dead_time_amended.2.1 [("dead_time", .num 5), ("a", .num 3)] _ _
  · exact C7_dead_time_amended.2.2 [("dead_time", .num 5), ("a", .num 3)] _ _ "b" (.num 4) 4
      (by simp [lookupKey]) (by simp) rfl
      (by simp [evalField, lookupKey, to_number])

theorem interpScan_cons (x : ℚ) (p q : ℚ × ℚ) (rest : List (ℚ × ℚ)) :
    interpScan x (p :: q :: rest)
      = if p.1 ≤ x ∧ x ≤ q.1 then
          (if q.1 = p.1 then some p.2
           else some (p.2 + (x - p.1) / (q.1 - p.1) * (q.2 - p.2)))
        else interpScan x (q :: rest) := rfl

theorem lastOf_append (q : ℚ × ℚ) (m : List (ℚ × ℚ)) :
    ∀ (l : List (ℚ × ℚ)) (p : ℚ × ℚ), lastOf p (l ++ q :: m) = lastOf q m := by
  intro l
  induction l with
  | nil =>
    intro p
    rw [List.nil_append, lastOf]
  | cons r rest ih =>
    intro p
    rw [List.cons_append, lastOf]
    exact ih r

theorem lastOf_eq_or_mem : ∀ (l : List (ℚ × ℚ)) (p : ℚ × ℚ), lastOf p l = p ∨ lastOf p l ∈ l := by
  intro l
  induction l with
  | nil =>
    intro p
    left
    rfl
  | cons q rest ih =>
    intro p
    rw [lastOf]
    rcases ih q with h | h
    · right
      rw [h]
      exact List.mem_cons_self q rest
    · right
      exact List.mem_cons_of_mem _ h

theorem lastOf_fst_ge (q : ℚ × ℚ) (m : List (ℚ × ℚ)) (h : ∀ e ∈ m, q.1 < e.1) :
    q.1 ≤ (lastOf q m).1 := by
  rcases lastOf_eq_or_mem m q with heq | hmem
  · rw [heq]
  · exact le_of_lt (h _ hmem)

theorem interpScan_interior (x x1 y1 x2 y2 : ℚ) :
    ∀ (a : List (ℚ × ℚ)) (b : List (ℚ × ℚ)),
      (a ++ (x1, y1) :: (x2, y2) :: b).Pairwise (fun p q => p.1 < q.1) →
      x1 < x → x < x2 →
      interpScan x (a ++ (x1, y1) :: (x2, y2) :: b)
        = some (y1 + (x - x1) / (x2 - x1) * (y2 - y1)) := by
  intro a
  induction a with
  | nil =>
    intro b _ h1 h2
    rw [List.nil_append, interpScan_cons,
      if_pos ⟨le_of_lt h1, le_of_lt h2⟩, if_neg (ne_of_gt (h1.trans h2))]
  | cons p0 a' ih =>
    intro b hpw h1 h2
    obtain ⟨hrel, htail⟩ := List.pairwise_cons.mp hpw
    cases a' with
    | nil =>
      have hcond : ¬(p0.1 ≤ x ∧ x ≤ (x1, y1).1) := by
        rintro ⟨_, hle⟩
        exact absurd hle (not_le.mpr h1)
      rw [List.cons_append, List.nil_append, interpScan_cons, if_neg hcond]
      have := ih b htail h1 h2
      rw [List.nil_append] at this
      exact this
    | cons p1 a'' =>
      have hp1 : p1.1 < x1 := by
        have := (List.pairwise_cons.mp htail).1 (x1, y1)
          (List.mem_append_right _ (List.mem_cons_self _ _))
        exact this
      have hcond : ¬(p0.1 ≤ x ∧ x ≤ p1.1) := by
        rintro ⟨_, hle⟩
        exact absurd (lt_of_le_of_lt hle (hp1.trans h1)) (lt_irrefl x)
      rw [List.cons_append, List.cons_append, interpScan_cons, if_neg hcond]
      have := ih b htail h1 h2
      rw [List.cons_append] at this
      exact this

/-- C6: the interpolate field rule. For a rule whose control points parse:
a null or non-numeric input evaluates to null (even more generally, for any
point list); with the sorted points non-empty, an input at or below the
first sorted point's `x` returns that point's `y`; an input at or above the
last point's `x` (when the points span a non-degenerate interval) returns
the last point's `y`; an input strictly inside a segment of the sorted,
strictly-increasing point list returns the exact linear interpolation on
that segment; and points `[(0,0),(10,100)]` at input 5 give 50. -/
theorem C6_interpolate_rule :
    (∀ (ptsRaw : List (Val × Val)) (v : Val) (ctx : Ctx),
      to_number v = none → apply_field_rule v (.interpolate ptsRaw) ctx = none) ∧
    (∀ (ptsRaw : List (Val × Val)) (v : Val) (ctx : Ctx) (pts0 : List (ℚ × ℚ))
        (p : ℚ × ℚ) (rest : List (ℚ × ℚ)) (x : ℚ),
      parsePoints ptsRaw = some pts0 → sortPoints pts0 = p :: rest →
      to_number v = some x → x ≤ p.1 →
      apply_field_rule v (.interpolate ptsRaw) ctx = some p.2) ∧
    (∀ (ptsRaw : List (Val × Val)) (v : Val) (ctx : Ctx) (pts0 : List (ℚ × ℚ))
        (p : ℚ × ℚ) (rest : List (ℚ × ℚ)) (x : ℚ),
      parsePoints ptsRaw = some pts0 → sortPoints pts0 = p :: rest →
      to_number v = some x → p.1 < (lastOf p rest).1 → (lastOf p rest).1 ≤ x →
      apply_field_rule v (.interpolate ptsRaw) ctx = some (lastOf p rest).2) ∧
    (∀ (ptsRaw : List (Val × Val)) (v : Val) (ctx : Ctx) (pts0 : List (ℚ × ℚ))
        (a b : List (ℚ × ℚ)) (x x1 y1 x2 y2 : ℚ),
      parsePoints ptsRaw = some pts0 →
      sortPoints pts0 = a ++ (x1, y1) :: (x2, y2) :: b →
      (a ++ (x1, y1) :: (x2, y2) :: b).Pairwise (fun p q => p.1 < q.1) →
      to_number v = some x → x1 < x → x < x2 →
      apply_field_rule v (.interpolate ptsRaw) ctx
        = some (y1 + (x - x1) / (x2 - x1) * (y2 - y1))) ∧
    apply_field_rule (.num 5) (.interpolate [(.num 0, .num 0), (.num 10, .num 100)])
      ⟨none, none, none, []⟩ = some 50 := by
  refine ⟨?_, ?_, ?_, ?_, ?_⟩
  · intro ptsRaw v ctx hv
    cases hp : parsePoints ptsRaw <;> simp [apply_field_rule, hp, hv]
  · intro ptsRaw v ctx pts0 p rest x hparse hsort hx hle
    simp only [apply_field_rule, hparse, hx]
    rw [hsort, interpClamp, if_pos hle]
  · intro ptsRaw v ctx pts0 p rest x hparse hsort hx hspan hge
    simp only [apply_field_rule, hparse, hx]
    have hlow : ¬(x ≤ p.1) := not_le.mpr (lt_of_lt_of_le hspan hge)
    rw [hsort, interpClamp, if_neg hlow, if_pos hge]
  · intro ptsRaw v ctx pts0 a b x x1 y1 x2 y2 hparse hsort hpw hx h1 h2
    have hmid : ((x1, y1) :: (x2, y2) :: b).Pairwise (fun p q => p.1 < q.1) :=
      (List.pairwise_append.mp hpw).2.1
    have hb : ∀ e ∈ b, x2 < e.1 := by
      intro e he
      exact (List.pairwise_cons.mp (List.pairwise_cons.mp hmid).2).1 e he
    have hlastbound : x < (lastOf (x2, y2) b).1 :=
      lt_of_lt_of_le h2 (lastOf_fst_ge (x2, y2) b hb)
    cases a with
    | nil =>
      rw [List.nil_append] at hsort hpw
      simp only [apply_field_rule, hparse, hx]
      have hlow : ¬(x ≤ (x1, y1).1) := not_le.mpr h1
      rw [hsort, interpClamp, if_neg hlow]
      have hlast : lastOf (x1, y1) ((x2, y2) :: b) = lastOf (x2, y2) b := rfl
      rw [hlast, if_neg (not_le.mpr hlastbound)]
      have := interpScan_interior x x1 y1 x2 y2 [] b (by rw [List.nil_append]; exact hpw)
        h1 h2
      rw [List.nil_append] at this
      exact this
    | cons p0 a' =>
      rw [List.cons_append] at hsort hpw
      simp only [apply_field_rule, hparse, hx]
      have hp0 : p0.1 < x1 :=
        (List.pairwise_cons.mp hpw).1 (x1, y1)
          (List.mem_append_right _ (List.mem_cons_self _ _))
      have hlow : ¬(x ≤ p0.1) := not_le.mpr ((hp0.trans h1))
      rw [hsort, interpClamp, if_neg hlow]
      have hlast : lastOf p0 (a' ++ (x1, y1) :: (x2, y2) :: b) = lastOf (x2, y2) b := by
        rw [lastOf_append (x1, y1) ((x2, y2) :: b) a' p0]
        rfl
      rw [hlast, if_neg (not_le.mpr hlastbound)]
      have := interpScan_interior x x1 y1 x2 y2 (p0 :: a') b
        (by rw [List.cons_append]; exact hpw) h1 h2
      rw [List.cons_append] at this
      exact this
  · simp [apply_field_rule, parsePoints, vFloat, to_number, sortPoints, insertPoint,
      lastOf, interpScan, interpClamp]
    norm_num

/-- Witness for C6: with points `[(0,0),(10,100)]`, input −1 clamps to 0,
input 11 clamps to 100, a null input gives null, and the interior input 5
reproduces the formula `0 + (5 − 0)/(10 − 0) * (100 − 0)`. -/
theorem C6_interpolate_rule_witness :
    apply_field_rule (.num (-1)) (.interpolate [(.num 0, .num 0), (.num 10, .num 100)])
      ⟨none, none, none, []⟩ = some (0, (0 : ℚ)).2 ∧
    apply_field_rule (.num 11) (.interpolate [(.num 0, .num 0), (.num 10, .num 100)])
      ⟨none, none, none, []⟩ = some (lastOf (0, 0) [((10 : ℚ), (100 : ℚ))]).2 ∧
    apply_field_rule .null (.interpolate [(.num 0, .num 0), (.num 10, .num 100)])
      ⟨none, none, none, []⟩ = none ∧
    apply_field_rule (.num 5) (.interpolate [(.num 0, .num 0), (.num 10, .num 100)])
      ⟨none, none, none, []⟩ = some (0 + (5 - 0) / (10 - 0) * (100 - 0)) := by
  refine ⟨?_, ?_, ?_, ?_⟩
  · exact C6_interpolate_rule.2.1 _ _ _ [(0, 0), (10, 100)] (0, 0) [(10, 100)] (-1)
      (by simp [parsePoints, vFloat])
      (by norm_num [sortPoints, insertPoint])
      (by simp [to_number]) (by norm_num)
  · exact C6_interpolate_rule.2.2.1 _ _ _ [(0, 0), (10, 100)] (0, 0) [(10, 100)] 11
      (by simp [parsePoints, vFloat])
      (by norm_num [sortPoints, insertPoint])
      (by simp [to_number]) (by norm_num [lastOf]) (by norm_num [lastOf])
  · exact C6_interpolate_rule.1 _ _ _ (by simp [to_number])
  · exact C6_interpolate_rule.2.2.2.1 _ _ _ [(0, 0), (10, 100)] [] [] 5 0 0 10 100
      (by simp [parsePoints, vFloat])
      (by norm_num [sortPoints, insertPoint])
      (by norm_num [List.pairwise_cons])
      (by simp [to_number]) (by norm_num) (by norm_num)

theorem cohortFilter_sublist (comp cp gid : ℕ) (tgs : List TeamGroupRec) :
    ∀ l : List EntryRec, (cohortFilter comp cp gid tgs l).Sublist l := by
  intro l
  induction l with
  | nil => exact List.Sublist.refl []
  | cons e rest ih =>
    rw [cohortFilter]
    by_cases h : e.competitionId = comp ∧ e.checkpointId = cp ∧
        activeInGroup e.teamId gid tgs
    · rw [if_pos h]
      exact ih.cons₂ e
    · rw [if_neg h]
      exact ih.cons e

theorem insertEntryDesc_perm (e : EntryRec) :
    ∀ l : List EntryRec, (insertEntryDesc e l).Perm (e :: l) := by
  intro l
  induction l with
  | nil => exact List.Perm.refl [e]
  | cons a rest ih =>
    rw [insertEntryDesc]
    by_cases h : a.createdAt < e.createdAt
    · rw [if_pos h]
    · rw [if_neg h]
      exact (ih.cons a).trans (List.Perm.swap e a rest)

theorem sortByCreatedDesc_perm : ∀ l : List EntryRec, (sortByCreatedDesc l).Perm l := by
  intro l
  induction l with
  | nil => exact List.Perm.refl []
  | cons e rest ih =>
    rw [sortByCreatedDesc]
    exact (insertEntryDesc_perm e (sortByCreatedDesc rest)).trans (ih.cons e)

theorem dedupByTeam_sublist : ∀ (l : List EntryRec) (seen : List ℕ),
    (dedupByTeam l seen).Sublist l := by
  intro l
  induction l with
  | nil => intro seen; exact List.Sublist.refl []
  | cons e rest ih =>
    intro seen
    rw [dedupByTeam]
    by_cases h : e.teamId ∈ seen
    · rw [if_pos h]
      exact (ih seen).cons e
    · rw [if_neg h]
      exact (ih (e.teamId :: seen)).cons₂ e

theorem mem_latestEntries {st : St} {comp cp gid : ℕ} {e : EntryRec}
    (he : e ∈ latestEntries st comp cp gid) : e ∈ st.entries := by
  unfold latestEntries at he
  have h1 := (dedupByTeam_sublist _ _).subset he
  have h2 := (sortByCreatedDesc_perm _).mem_iff.mp h1
  exact (cohortFilter_sublist _ _ _ _ _).subset h2

theorem nodup_ids_latestEntries {st : St} {comp cp gid : ℕ}
    (hnd : (st.entries.map EntryRec.id).Nodup) :
    ((latestEntries st comp cp gid).map EntryRec.id).Nodup := by
  unfold latestEntries
  have h1 : ((cohortFilter comp cp gid st.teamGroups st.entries).map EntryRec.id).Nodup :=
    List.Nodup.sublist (List.Sublist.map _ (cohortFilter_sublist _ _ _ _ _)) hnd
  have h2 : ((sortByCreatedDesc
      (cohortFilter comp cp gid st.teamGroups st.entries)).map EntryRec.id).Nodup :=
    (((sortByCreatedDesc_perm _).map EntryRec.id).nodup_iff).mpr h1
  exact List.Nodup.sublist (List.Sublist.map _ (dedupByTeam_sublist _ _)) h2

theorem lookupKey_ruleChangeUpdates :
    ∀ (entries : List EntryRec), (entries.map EntryRec.id).Nodup →
      ∀ {e : EntryRec}, e ∈ entries →
      ∀ {scores : List (ℕ × ℚ)} {s : ℚ}, lookupKey e.teamId scores = some s →
      lookupKey e.id (ruleChangeUpdates scores entries) = some (some s) := by
  intro entries
  induction entries with
  | nil =>
    intro _ e he
    cases he
  | cons e0 rest ih =>
    intro hnd e he scores s hs
    rw [List.map_cons, List.nodup_cons] at hnd
    obtain ⟨hid0, hndrest⟩ := hnd
    rcases List.mem_cons.mp he with heq | hmem
    · subst heq
      rw [ruleChangeUpdates, hs, lookupKey, if_pos rfl]
    · have hne : ¬(e0.id = e.id) := by
        intro hid
        exact hid0 (hid ▸ List.mem_map_of_mem EntryRec.id hmem)
      rw [ruleChangeUpdates]
      cases h0 : lookupKey e0.teamId scores with
      | none => exact ih hndrest hmem hs
      | some s0 =>
        rw [lookupKey, if_neg hne]
        exact ih hndrest hmem hs

theorem lookupKey_submitRecomputeUpdates
    (comp gid : ℕ) (ph : Option String) (rule : Option Rule) (checkins : List CheckinRec)
    (scores : List (ℕ × ℚ)) :
    ∀ (entries : List EntryRec), (entries.map EntryRec.id).Nodup →
      ∀ {e : EntryRec}, e ∈ entries →
      lookupKey e.id (submitRecomputeUpdates comp gid ph rule checkins scores entries)
        = some (submitEntryTotal comp gid ph rule checkins scores e) := by
  intro entries
  induction entries with
  | nil =>
    intro _ e he
    cases he
  | cons e0 rest ih =>
    intro hnd e he
    rw [List.map_cons, List.nodup_cons] at hnd
    obtain ⟨hid0, hndrest⟩ := hnd
    rcases List.mem_cons.mp he with heq | hmem
    · subst heq
      rw [submitRecomputeUpdates, lookupKey, if_pos rfl]
    · have hne : ¬(e0.id = e.id) := by
        intro hid
        exact hid0 (hid ▸ List.mem_map_of_mem EntryRec.id hmem)
      rw [submitRecomputeUpdates, lookupKey, if_neg hne]
      exact ih hndrest hmem

theorem mem_applyTotals :
    ∀ (entries : List EntryRec) (updates : List (ℕ × Option ℚ)) {e : EntryRec}
      {t : Option ℚ}, e ∈ entries → lookupKey e.id updates = some t →
      { e with total := t } ∈ applyTotals updates entries := by
  intro entries
  induction entries with
  | nil =>
    intro _ e _ he
    cases he
  | cons e0 rest ih =>
    intro updates e t he hl
    rcases List.mem_cons.mp he with heq | hmem
    · subst heq
      rw [applyTotals, hl]
      exact List.mem_cons_self _ _
    · rw [applyTotals]
      cases h0 : lookupKey e0.id updates with
      | none => exact List.mem_cons_of_mem _ (ih updates hmem hl)
      | some t0 => exact List.mem_cons_of_mem _ (ih updates hmem hl)

/-- C1 as stated fails on the code: on the new-submission trigger the
normalizer's result does **not** replace the field-rule total — it is added
to it. Team 1's entry (field-rule base 40) is stored with total 140 after
team 2's submission, while the relative race normalizer assigns team 1 the
score 100. -/
theorem C1_time_race_replacement_cex :
    ((score_submit_post
        ⟨[⟨9, 1, 1, 0⟩, ⟨9, 1, 2, 600⟩, ⟨9, 2, 1, 0⟩, ⟨9, 2, 2, 1200⟩],
         [⟨1, 9, 1, 3, [("score", .num 40)], some 40, 1⟩],
         [⟨1, 5, true⟩, ⟨2, 5, true⟩]⟩
        9 2 3 5 [("score", .num 40)] none
        (some ⟨[("score", .passthrough)], [], some ⟨some 1, some 2, .num 0, .num 100⟩⟩)
        50 10 5).entries.map (fun e => (e.id, e.total)))
      = [(1, some 140), (10, some 40)] ∧
    lookupKey 1
      (compute_time_race_scores_from_checkins [2, 1]
        [⟨9, 1, 1, 0⟩, ⟨9, 1, 2, 600⟩, ⟨9, 2, 1, 0⟩, ⟨9, 2, 2, 1200⟩, ⟨9, 2, 3, 50⟩]
        9 1 2 0 100) = some 100 ∧
    some (140 : ℚ) ≠ some (100 : ℚ) := by
  refine ⟨?_, ?_, ?_⟩
  · simp [score_submit_post, submitStage1, hasCheckin, compute_total, fieldRulesTotal,
      evalFields, evalField, keysOf, dropDeadTime, totalsOver, fallbackSum, sumUsed,
      lookupKey, apply_field_rule, to_number, ruleTimeRace, truthyId, latestEntries,
      cohortFilter, activeInGroup, sortByCreatedDesc, insertEntryDesc, dedupByTeam,
      compute_time_race_scores_from_checkins, durationsOf, durOf, minTs, tsList, foldMin,
      foldMax, submitRecomputeUpdates, submitEntryTotal, submitMaxPoints, applyTotals]
    norm_num [min_def, max_def]
  · simp [compute_time_race_scores_from_checkins, durationsOf, durOf, minTs, tsList,
      foldMin, foldMax, lookupKey]
    norm_num [foldMin, foldMax, min_def, max_def, lookupKey]
  · norm_num

/-- C1 amended: with an active `time_race` rule, the two recomputation
triggers treat the normalizer's result differently. On the rule-change
trigger (`recompute_scores_for_rule`) each scored cohort member's stored
total becomes the normalizer's score *alone*. On the new-submission trigger
(`ScoreSubmit.post`) each scored cohort member's stored total becomes its
field-rule base total (`or 0.0`) **plus** the normalizer's score — the
replacement the claim describes holds only for the rule-change trigger. -/
theorem C1_time_race_replacement_amended :
    (∀ (st : St) (comp cp gid : ℕ) (rule : Option Rule) (tr : TimeRace) (scp ecp : ℕ)
        (e : EntryRec) (s : ℚ),
      (st.entries.map EntryRec.id).Nodup →
      ruleTimeRace rule = some (tr, scp, ecp) →
      e ∈ latestEntries st comp cp gid →
      lookupKey e.teamId
        (compute_time_race_scores_from_checkins
          ((latestEntries st comp cp gid).map (fun e2 => e2.teamId)) st.checkins comp scp ecp
          ((to_number tr.minPoints).getD 0) ((to_number tr.maxPoints).getD 0)) = some s →
      { e with total := some s } ∈ (recompute_scores_for_rule st comp cp gid rule).entries) ∧
    (∀ (st : St) (comp team cp gid : ℕ) (fields : List (String × Val)) (ph : Option String)
        (rule : Option Rule) (now : ℚ) (nid ca : ℕ) (tr : TimeRace) (scp ecp : ℕ)
        (e : EntryRec) (s : ℚ),
      ((submitStage1 st comp team cp gid fields ph rule now nid ca).entries.map
        EntryRec.id).Nodup →
      ruleTimeRace rule = some (tr, scp, ecp) →
      e ∈ latestEntries (submitStage1 st comp team cp gid fields ph rule now nid ca)
        comp cp gid →
      lookupKey e.teamId
        (compute_time_race_scores_from_checkins
          ((latestEntries (submitStage1 st comp team cp gid fields ph rule now nid ca)
              comp cp gid).map (fun e2 => e2.teamId))
          (submitStage1 st comp team cp gid fields ph rule now nid ca).checkins comp scp ecp
          ((to_number tr.minPoints).getD 0)
          (submitMaxPoints tr (compute_total fields ph rule ⟨some team, some comp, some gid,
            (submitStage1 st comp team cp gid fields ph rule now nid ca).checkins⟩)))
        = some s →
      { e with total := some ((compute_total e.rawFields ph rule
          ⟨some e.teamId, some comp, some gid,
            (submitStage1 st comp team cp gid fields ph rule now nid ca).checkins⟩).getD 0
          + s) }
        ∈ (score_submit_post st comp team cp gid fields ph rule now nid ca).entries) := by
  constructor
  · intro st comp cp gid rule tr scp ecp e s hnd hrt he hs
    have hmem : e ∈ st.entries := mem_latestEntries he
    have hndl : ((latestEntries st comp cp gid).map EntryRec.id).Nodup :=
      nodup_ids_latestEntries hnd
    rcases hle : latestEntries st comp cp gid with _ | ⟨e0, es⟩
    · rw [hle] at he
      cases he
    · rw [hle] at he hs hndl
      simp only [recompute_scores_for_rule, hle, hrt]
      exact mem_applyTotals st.entries _ hmem
        (lookupKey_ruleChangeUpdates (e0 :: es) hndl he hs)
  · intro st comp team cp gid fields ph rule now nid ca tr scp ecp e s hnd hrt he hs
    have hmem : e ∈ (submitStage1 st comp team cp gid fields ph rule now nid ca).entries :=
      mem_latestEntries he
    have hndl := @nodup_ids_latestEntries
      (submitStage1 st comp team cp gid fields ph rule now nid ca) comp cp gid hnd
    simp only [score_submit_post, hrt]
    have hlk := lookupKey_submitRecomputeUpdates comp gid ph rule
      (submitStage1 st comp team cp gid fields ph rule now nid ca).checkins
      (compute_time_race_scores_from_checkins
        ((latestEntries (submitStage1 st comp team cp gid fields ph rule now nid ca)
            comp cp gid).map (fun e2 => e2.teamId))
        (submitStage1 st comp team cp gid fields ph rule now nid ca).checkins comp scp ecp
        ((to_number tr.minPoints).getD 0)
        (submitMaxPoints tr (compute_total fields ph rule ⟨some team, some comp, some gid,
          (submitStage1 st comp team cp gid fields ph rule now nid ca).checkins⟩)))
      (latestEntries (submitStage1 st comp team cp gid fields ph rule now nid ca) comp cp gid)
      hndl he
    rw [submitEntryTotal, hs] at hlk
    exact mem_applyTotals _ _ hmem hlk

/-- Witness for C1 amended: in a two-team cohort (durations 600 s and
1200 s, min 0 / max 100 points), the rule-change recompute stores team 1's
normalized score 100 *alone* on its entry, while the submission-triggered
recompute stores team 1's field-rule base (40) plus the score 100 — i.e.
140. -/
theorem C1_time_race_replacement_amended_witness :
    (⟨1, 9, 1, 3, [("score", Val.num 40)], some 100, 1⟩ : EntryRec)
      ∈ (recompute_scores_for_rule
          ⟨[⟨9, 1, 1, 0⟩, ⟨9, 1, 2, 600⟩, ⟨9, 2, 1, 0⟩, ⟨9, 2, 2, 1200⟩],
           [⟨1, 9, 1, 3, [("score", .num 40)], some 40, 1⟩,
            ⟨10, 9, 2, 3, [("score", .num 40)], some 40, 5⟩],
           [⟨1, 5, true⟩, ⟨2, 5, true⟩]⟩
          9 3 5
          (some ⟨[("score", .passthrough)], [],
            some ⟨some 1, some 2, .num 0, .num 100⟩⟩)).entries ∧
    ({ (⟨1, 9, 1, 3, [("score", Val.num 40)], some 40, 1⟩ : EntryRec) with
        total := some ((compute_total [("score", Val.num 40)] none
          (some ⟨[("score", .passthrough)], [],
            some ⟨some 1, some 2, .num 0, .num 100⟩⟩)
          ⟨some 1, some 9, some 5,
            (submitStage1
              ⟨[⟨9, 1, 1, 0⟩, ⟨9, 1, 2, 600⟩, ⟨9, 2, 1, 0⟩, ⟨9, 2, 2, 1200⟩],
               [⟨1, 9, 1, 3, [("score", .num 40)], some 40, 1⟩],
               [⟨1, 5, true⟩, ⟨2, 5, true⟩]⟩
              9 2 3 5 [("score", .num 40)] none
              (some ⟨[("score", .passthrough)], [],
                some ⟨some 1, some 2, .num 0, .num 100⟩⟩) 50 10 5).checkins⟩).getD 0 + 100) })
      ∈ (score_submit_post
          ⟨[⟨9, 1, 1, 0⟩, ⟨9, 1, 2, 600⟩, ⟨9, 2, 1, 0⟩, ⟨9, 2, 2, 1200⟩],
           [⟨1, 9, 1, 3, [("score", .num 40)], some 40, 1⟩],
           [⟨1, 5, true⟩, ⟨2, 5, true⟩]⟩
          9 2 3 5 [("score", .num 40)] none
          (some ⟨[("score", .passthrough)], [],
            some ⟨some 1, some 2, .num 0, .num 100⟩⟩) 50 10 5).entries ∧
    ((compute_total [("score", Val.num 40)] none
        (some ⟨[("score", .passthrough)], [], some ⟨some 1, some 2, .num 0, .num 100⟩⟩)
        ⟨some 1, some 9, some 5,
          (submitStage1
            ⟨[⟨9, 1, 1, 0⟩, ⟨9, 1, 2, 600⟩, ⟨9, 2, 1, 0⟩, ⟨9, 2, 2, 1200⟩],
             [⟨1, 9, 1, 3, [("score", .num 40)], some 40, 1⟩],
             [⟨1, 5, true⟩, ⟨2, 5, true⟩]⟩
            9 2 3 5 [("score", .num 40)] none
            (some ⟨[("score", .passthrough)], [],
              some ⟨some 1, some 2, .num 0, .num 100⟩⟩) 50 10 5).checkins⟩).getD 0 + 100 : ℚ)
      = 140 := by
  refine ⟨?_, ?_, ?_⟩
  · exact C1_time_race_replacement_amended.1
      ⟨[⟨9, 1, 1, 0⟩, ⟨9, 1, 2, 600⟩, ⟨9, 2, 1, 0⟩, ⟨9, 2, 2, 1200⟩],
       [⟨1, 9, 1, 3, [("score", .num 40)], some 40, 1⟩,
        ⟨10, 9, 2, 3, [("score", .num 40)], some 40, 5⟩],
       [⟨1, 5, true⟩, ⟨2, 5, true⟩]⟩
      9 3 5
      (some ⟨[("score", .passthrough)], [], some ⟨some 1, some 2, .num 0, .num 100⟩⟩)
      ⟨some 1, some 2, .num 0, .num 100⟩ 1 2
      ⟨1, 9, 1, 3, [("score", .num 40)], some 40, 1⟩ 100
      (by simp)
      rfl
      (by
        simp [latestEntries, cohortFilter, activeInGroup, sortByCreatedDesc,
          insertEntryDesc, dedupByTeam])
      (by
        simp [latestEntries, cohortFilter, activeInGroup, sortByCreatedDesc,
          insertEntryDesc, dedupByTeam, compute_time_race_scores_from_checkins,
          durationsOf, durOf, minTs, tsList, foldMin, foldMax, lookupKey, to_number]
        norm_num [foldMin, foldMax, min_def, max_def])
  · exact C1_time_race_replacement_amended.2
      ⟨[⟨9, 1, 1, 0⟩, ⟨9, 1, 2, 600⟩, ⟨9, 2, 1, 0⟩, ⟨9, 2, 2, 1200⟩],
       [⟨1, 9, 1, 3, [("score", .num 40)], some 40, 1⟩],
       [⟨1, 5, true⟩, ⟨2, 5, true⟩]⟩
      9 2 3 5 [("score", .num 40)] none
      (some ⟨[("score", .passthrough)], [], some ⟨some 1, some 2, .num 0, .num 100⟩⟩)
      50 10 5
      ⟨some 1, some 2, .num 0, .num 100⟩ 1 2
      ⟨1, 9, 1, 3, [("score", .num 40)], some 40, 1⟩ 100
      (by simp [submitStage1, hasCheckin, compute_total, fieldRulesTotal, evalFields,
        evalField, keysOf, dropDeadTime, totalsOver, fallbackSum, sumUsed, lookupKey,
        apply_field_rule, to_number])
      rfl
      (by
        simp [submitStage1, hasCheckin, latestEntries, cohortFilter, activeInGroup,
          sortByCreatedDesc, insertEntryDesc, dedupByTeam, compute_total, fieldRulesTotal,
          evalFields, evalField, keysOf, dropDeadTime, totalsOver, fallbackSum, sumUsed,
          lookupKey, apply_field_rule, to_number])
      (by
        simp [submitStage1, hasCheckin, latestEntries, cohortFilter, activeInGroup,
          sortByCreatedDesc, insertEntryDesc, dedupByTeam, compute_total, fieldRulesTotal,
          evalFields, evalField, keysOf, dropDeadTime, totalsOver, fallbackSum, sumUsed,
          lookupKey, apply_field_rule, to_number, compute_time_race_scores_from_checkins,
          durationsOf, durOf, minTs, tsList, foldMin, foldMax, submitMaxPoints]
        norm_num [foldMin, foldMax, min_def, max_def])
  · simp [submitStage1, hasCheckin, compute_total, fieldRulesTotal, evalFields, evalField,
      keysOf, dropDeadTime, totalsOver, fallbackSum, sumUsed, lookupKey, apply_field_rule,
      to_number]
    norm_num

/-- C3: under an active `time_race` rule, one team's submission rewrites the
stored total of **every** cohort member's current entry with a value
computed from the whole cohort (`submitEntryTotal` over the normalizer run
on all cohort teams' checkins), not just the submitter's data. Concretely:
teams 1 and 2 hold entries with null totals and untouched raw fields; team
3's first-ever submission overwrites both their totals (to 100 and 50); and
changing only team 3's end-checkpoint time (1800 s → 2400 s) changes team
2's recomputed total (50 → 200/3) even though team 2's own rows are
identical. -/
theorem C3_submission_recomputes_cohort :
    (∀ (st : St) (comp team cp gid : ℕ) (fields : List (String × Val)) (ph : Option String)
        (rule : Option Rule) (now : ℚ) (nid ca : ℕ) (tr : TimeRace) (scp ecp : ℕ)
        (e : EntryRec),
      ((submitStage1 st comp team cp gid fields ph rule now nid ca).entries.map
        EntryRec.id).Nodup →
      ruleTimeRace rule = some (tr, scp, ecp) →
      e ∈ latestEntries (submitStage1 st comp team cp gid fields ph rule now nid ca)
        comp cp gid →
      { e with total := (submitEntryTotal comp gid ph rule
          (submitStage1 st comp team cp gid fields ph rule now nid ca).checkins
          (compute_time_race_scores_from_checkins
            ((latestEntries (submitStage1 st comp team cp gid fields ph rule now nid ca)
                comp cp gid).map (fun e2 => e2.teamId))
            (submitStage1 st comp team cp gid fields ph rule now nid ca).checkins comp scp ecp
            ((to_number tr.minPoints).getD 0)
            (submitMaxPoints tr (compute_total fields ph rule ⟨some team, some comp, some gid,
              (submitStage1 st comp team cp gid fields ph rule now nid ca).checkins⟩))) e) }
        ∈ (score_submit_post st comp team cp gid fields ph rule now nid ca).entries) ∧
    ((score_submit_post
        ⟨[⟨9, 1, 1, 0⟩, ⟨9, 1, 2, 600⟩, ⟨9, 2, 1, 0⟩, ⟨9, 2, 2, 1200⟩,
          ⟨9, 3, 1, 0⟩, ⟨9, 3, 2, 1800⟩],
         [⟨1, 9, 1, 3, [], none, 1⟩, ⟨2, 9, 2, 3, [], none, 2⟩],
         [⟨1, 5, true⟩, ⟨2, 5, true⟩, ⟨3, 5, true⟩]⟩
        9 3 3 5 [] none (some ⟨[], [], some ⟨some 1, some 2, .num 0, .num 100⟩⟩)
        50 31 5).entries.map (fun e => (e.id, e.total))
      = [(1, some 100), (2, some 50), (31, some 0)] ∧
     (score_submit_post
        ⟨[⟨9, 1, 1, 0⟩, ⟨9, 1, 2, 600⟩, ⟨9, 2, 1, 0⟩, ⟨9, 2, 2, 1200⟩,
          ⟨9, 3, 1, 0⟩, ⟨9, 3, 2, 1800⟩],
         [⟨1, 9, 1, 3, [], none, 1⟩, ⟨2, 9, 2, 3, [], none, 2⟩],
         [⟨1, 5, true⟩, ⟨2, 5, true⟩, ⟨3, 5, true⟩]⟩
        9 3 3 5 [] none (some ⟨[], [], some ⟨some 1, some 2, .num 0, .num 100⟩⟩)
        50 31 5).entries.map (fun e => (e.id, e.rawFields))
      = [(1, []), (2, []), (31, [])]) ∧
    ((score_submit_post
        ⟨[⟨9, 1, 1, 0⟩, ⟨9, 1, 2, 600⟩, ⟨9, 2, 1, 0⟩, ⟨9, 2, 2, 1200⟩,
          ⟨9, 3, 1, 0⟩, ⟨9, 3, 2, 2400⟩],
         [⟨1, 9, 1, 3, [], none, 1⟩, ⟨2, 9, 2, 3, [], none, 2⟩],
         [⟨1, 5, true⟩, ⟨2, 5, true⟩, ⟨3, 5, true⟩]⟩
        9 3 3 5 [] none (some ⟨[], [], some ⟨some 1, some 2, .num 0, .num 100⟩⟩)
        50 31 5).entries.map (fun e => (e.id, e.total))
      = [(1, some 100), (2, some (200 / 3)), (31, some 0)] ∧
     some (50 : ℚ) ≠ some (200 / 3 : ℚ)) := by
  refine ⟨?_, ⟨?_, ?_⟩, ⟨?_, ?_⟩⟩
  · intro st comp team cp gid fields ph rule now nid ca tr scp ecp e hnd hrt he
    have hmem : e ∈ (submitStage1 st comp team cp gid fields ph rule now nid ca).entries :=
      mem_latestEntries he
    have hndl := @nodup_ids_latestEntries
      (submitStage1 st comp team cp gid fields ph rule now nid ca) comp cp gid hnd
    simp only [score_submit_post, hrt]
    exact mem_applyTotals _ _ hmem
      (lookupKey_submitRecomputeUpdates comp gid ph rule _ _ _ hndl he)
  · simp [score_submit_post, submitStage1, hasCheckin, compute_total, fieldRulesTotal,
      evalFields, evalField, keysOf, dropDeadTime, totalsOver, fallbackSum, sumUsed,
      lookupKey, apply_field_rule, to_number, ruleTimeRace, truthyId, latestEntries,
      cohortFilter, activeInGroup, sortByCreatedDesc, insertEntryDesc, dedupByTeam,
      compute_time_race_scores_from_checkins, durationsOf, durOf, minTs, tsList, foldMin,
      foldMax, submitRecomputeUpdates, submitEntryTotal, submitMaxPoints, applyTotals]
    norm_num [foldMin, foldMax, min_def, max_def]
  · simp [score_submit_post, submitStage1, hasCheckin, compute_total, fieldRulesTotal,
      evalFields, evalField, keysOf, dropDeadTime, totalsOver, fallbackSum, sumUsed,
      lookupKey, apply_field_rule, to_number, ruleTimeRace, truthyId, latestEntries,
      cohortFilter, activeInGroup, sortByCreatedDesc, insertEntryDesc, dedupByTeam,
      compute_time_race_scores_from_checkins, durationsOf, durOf, minTs, tsList, foldMin,
      foldMax, submitRecomputeUpdates, submitEntryTotal, submitMaxPoints, applyTotals]
  · simp [score_submit_post, submitStage1, hasCheckin, compute_total, fieldRulesTotal,
      evalFields, evalField, keysOf, dropDeadTime, totalsOver, fallbackSum, sumUsed,
      lookupKey, apply_field_rule, to_number, ruleTimeRace, truthyId, latestEntries,
      cohortFilter, activeInGroup, sortByCreatedDesc, insertEntryDesc, dedupByTeam,
      compute_time_race_scores_from_checkins, durationsOf, durOf, minTs, tsList, foldMin,
      foldMax, submitRecomputeUpdates, submitEntryTotal, submitMaxPoints, applyTotals]
    norm_num [foldMin, foldMax, min_def, max_def]
  · norm_num

/-- Witness for C3: in the three-team scenario, team 1's entry (not the
submitter's) is rewritten with the cohort-wide `submitEntryTotal`, i.e. its
normalized score 100. -/
theorem C3_submission_recomputes_cohort_witness :
    ({ (⟨1, 9, 1, 3, [], none, 1⟩ : EntryRec) with
        total := (submitEntryTotal 9 5 none
          (some ⟨[], [], some ⟨some 1, some 2, .num 0, .num 100⟩⟩)
          (submitStage1
            ⟨[⟨9, 1, 1, 0⟩, ⟨9, 1, 2, 600⟩, ⟨9, 2, 1, 0⟩, ⟨9, 2, 2, 1200⟩,
              ⟨9, 3, 1, 0⟩, ⟨9, 3, 2, 1800⟩],
             [⟨1, 9, 1, 3, [], none, 1⟩, ⟨2, 9, 2, 3, [], none, 2⟩],
             [⟨1, 5, true⟩, ⟨2, 5, true⟩, ⟨3, 5, true⟩]⟩
            9 3 3 5 [] none (some ⟨[], [], some ⟨some 1, some 2, .num 0, .num 100⟩⟩)
            50 31 5).checkins
          (compute_time_race_scores_from_checkins
            ((latestEntries (submitStage1
                ⟨[⟨9, 1, 1, 0⟩, ⟨9, 1, 2, 600⟩, ⟨9, 2, 1, 0⟩, ⟨9, 2, 2, 1200⟩,
                  ⟨9, 3, 1, 0⟩, ⟨9, 3, 2, 1800⟩],
                 [⟨1, 9, 1, 3, [], none, 1⟩, ⟨2, 9, 2, 3, [], none, 2⟩],
                 [⟨1, 5, true⟩, ⟨2, 5, true⟩, ⟨3, 5, true⟩]⟩
                9 3 3 5 [] none (some ⟨[], [], some ⟨some 1, some 2, .num 0, .num 100⟩⟩)
                50 31 5) 9 3 5).map (fun e2 => e2.teamId))
            (submitStage1
              ⟨[⟨9, 1, 1, 0⟩, ⟨9, 1, 2, 600⟩, ⟨9, 2, 1, 0⟩, ⟨9, 2, 2, 1200⟩,
                ⟨9, 3, 1, 0⟩, ⟨9, 3, 2, 1800⟩],
               [⟨1, 9, 1, 3, [], none, 1⟩, ⟨2, 9, 2, 3, [], none, 2⟩],
               [⟨1, 5, true⟩, ⟨2, 5, true⟩, ⟨3, 5, true⟩]⟩
              9 3 3 5 [] none (some ⟨[], [], some ⟨some 1, some 2, .num 0, .num 100⟩⟩)
              50 31 5).checkins 9 1 2
            ((to_number (Val.num 0)).getD 0)
            (submitMaxPoints ⟨some 1, some 2, .num 0, .num 100⟩
              (compute_total [] none
                (some ⟨[], [], some ⟨some 1, some 2, .num 0, .num 100⟩⟩)
                ⟨some 3, some 9, some 5,
                  (submitStage1
                    ⟨[⟨9, 1, 1, 0⟩, ⟨9, 1, 2, 600⟩, ⟨9, 2, 1, 0⟩, ⟨9, 2, 2, 1200⟩,
                      ⟨9, 3, 1, 0⟩, ⟨9, 3, 2, 1800⟩],
                     [⟨1, 9, 1, 3, [], none, 1⟩, ⟨2, 9, 2, 3, [], none, 2⟩],
                     [⟨1, 5, true⟩, ⟨2, 5, true⟩, ⟨3, 5, true⟩]⟩
                    9 3 3 5 [] none
                    (some ⟨[], [], some ⟨some 1, some 2, .num 0, .num 100⟩⟩)
                    50 31 5).checkins⟩)))
          ⟨1, 9, 1, 3, [], none, 1⟩) })
      ∈ (score_submit_post
          ⟨[⟨9, 1, 1, 0⟩, ⟨9, 1, 2, 600⟩, ⟨9, 2, 1, 0⟩, ⟨9, 2, 2, 1200⟩,
            ⟨9, 3, 1, 0⟩, ⟨9, 3, 2, 1800⟩],
           [⟨1, 9, 1, 3, [], none, 1⟩, ⟨2, 9, 2, 3, [], none, 2⟩],
           [⟨1, 5, true⟩, ⟨2, 5, true⟩, ⟨3, 5, true⟩]⟩
          9 3 3 5 [] none (some ⟨[], [], some ⟨some 1, some 2, .num 0, .num 100⟩⟩)
          50 31 5).entries := by
  exact C3_submission_recomputes_cohort.1
    ⟨[⟨9, 1, 1, 0⟩, ⟨9, 1, 2, 600⟩, ⟨9, 2, 1, 0⟩, ⟨9, 2, 2, 1200⟩,
      ⟨9, 3, 1, 0⟩, ⟨9, 3, 2, 1800⟩],
     [⟨1, 9, 1, 3, [], none, 1⟩, ⟨2, 9, 2, 3, [], none, 2⟩],
     [⟨1, 5, true⟩, ⟨2, 5, true⟩, ⟨3, 5, true⟩]⟩
    9 3 3 5 [] none (some ⟨[], [], some ⟨some 1, some 2, .num 0, .num 100⟩⟩)
    50 31 5 ⟨some 1, some 2, .num 0, .num 100⟩ 1 2 ⟨1, 9, 1, 3, [], none, 1⟩
    (by simp [submitStage1, hasCheckin, compute_total, fallbackSum, sumUsed, lookupKey,
      to_number])
    rfl
    (by simp [submitStage1, hasCheckin, latestEntries, cohortFilter, activeInGroup,
      sortByCreatedDesc, insertEntryDesc, dedupByTeam, compute_total, fallbackSum, sumUsed,
      lookupKey, to_number])
